import Mathlib

/-!
# hina: the tree-walking evaluator

A shallow embedding of `internal/hina/environment.go` and
`internal/hina/evaluator.go`.

* Go maps are association lists with unique keys (`Environment.Set` replaces
  in place or appends), so `Get` after `Set` behaves as a map does.
* An evaluation either returns a value, returns a Go `error`, or stops in a
  run-time panic; these are the three constructors of `Outcome`.  Only a
  returned `error` can be inspected by a caller (`TupleNode.Eval` does so), a
  panic unwinds through every caller.
* `evalNode` is recursive without bound in the source; the embedding takes a
  fuel argument that decreases at every call of `evalNode`, and `none` means
  that the fuel ran out.
* Environments are mutated in place in the source.  Every evaluation therefore
  returns the environment it leaves behind, in all three outcomes.
* `fmt.Println` in `PrintNode.Eval` writes to standard output and has no
  influence on any returned value; the output stream is not part of the state.
-/

namespace Hina

/-! ## Raw nodes -/

/-- Modelled from the spec: the inspectors (`inspectLiteral`, `inspectBinary`,
`inspectLet`, ...) are not among the sources; they turn a raw node into a term
variant or return a validation error.

A raw node of the parsed tree is a Go `map[string]interface{}`; it is seen here
through its `kind` tag and the fields that the inspector of that kind hands to
the evaluator.  Sub-nodes stay raw until they are evaluated.  A constructor
other than `Other` stands for an object that its inspector accepts, with the
fields the evaluator reads; every sub-node field of such an object is itself
an object.  `Other kind` is any object that is not accepted: one of a known
kind whose inspector returns a validation error, or one whose kind tag is
unknown.  Entries of a parameter list and of an argument list are checked by
`FunctionNode.setParameters` itself, so they are kept as they come: a
parameter is `some name` when it is an object with a string `text` field and
`none` otherwise, an argument is `some node` when it is an object and `none`
otherwise. -/
inductive Node where
  | Str (value : String)
  | Int (value : Int)
  | Bool (value : Bool)
  | Print (value : Node)
  | Binary (op : String) (lhs rhs : Node)
  | Let (identifier : String) (value next : Node)
  | Var (text : String)
  | Tuple (first second : Node)
  | First (value : Node)
  | Second (value : Node)
  | If (condition thenBranch elseBranch : Node)
  | Function (parameters : List (Option String)) (value : Node)
  | Call (callee : Node) (arguments : List (Option Node))
  | Other (kind : String)

/-! ## Environment (`environment.go`) -/

/-- The Go struct `Environment`: one flat symbol table.  The values stored are
always raw nodes (`LetNode.Eval` stores `variable.Value`, `setParameters` an
argument object, `captureEnv` copies entries). -/
structure Environment where
  SymbolTable : List (String × Node)

/-- The Go function `NewEnvironment`. -/
def NewEnvironment : Environment := ⟨[]⟩

/-- Map lookup `m[identifier]`. -/
def lookupEntry : List (String × Node) → String → Option Node
  | [], _ => none
  | (k, v) :: rest, identifier => if k = identifier then some v else lookupEntry rest identifier

/-- Map assignment `m[identifier] = value`. -/
def setEntry : List (String × Node) → String → Node → List (String × Node)
  | [], identifier, value => [(identifier, value)]
  | (k, v) :: rest, identifier, value =>
    if k = identifier then (identifier, value) :: rest else (k, v) :: setEntry rest identifier value

/-- The method `Environment.Get`: `none` is the Go result `(nil, false)`. -/
def Environment.Get (env : Environment) (identifier : String) : Option Node :=
  lookupEntry env.SymbolTable identifier

/-- The method `Environment.Set`. -/
def Environment.Set (env : Environment) (identifier : String) (value : Node) : Environment :=
  ⟨setEntry env.SymbolTable identifier value⟩

/-- One iteration of the `range` loop shared by `Environment.Copy` and
`FunctionNode.captureEnv`. -/
def copyEntry (env : Environment) (entry : String × Node) : Environment :=
  match env.Get entry.1 with
  | some _ => env
  | none => env.Set entry.1 entry.2

/-- The method `Environment.Copy`: the receiver `env` takes every entry of
`target` whose key it does not have yet.  The result is the receiver after the
loop; `target` is only read. -/
def Environment.Copy (env target : Environment) : Environment :=
  target.SymbolTable.foldl copyEntry env

/-! ## Terms -/

/-- The values that `evalNode` returns.  `nil` is the nil interface value: the
fields of the empty `TupleNode{}` that `TupleNode.Eval` returns hold it, and
`TupleFunction.Eval` can return it.  `LetNode` is a value because `evalNode`
returns the inspected `let` itself. -/
inductive Term where
  | nil
  | StrNode (Value : String)
  | IntNode (Value : Int)
  | BoolNode (Value : Bool)
  | TupleNode (First Second : Term)
  | FunctionNode (Parameters : List (Option String)) (Value : Node) (Env : Environment)
  | LetNode (Identifier : String) (Value Next : Node)

/-- The errors built with `fmt.Errorf` in `evaluator.go`, one constructor for
each message, and `inspection` for the validation error of an inspector. -/
inductive Error where
  /-- tree has no expressions -/
  | emptyTree
  /-- unknown term: kind -/
  | unknownTerm (kind : String)
  /-- the inspector of this kind rejected the node -/
  | inspection (kind : String)
  /-- the Add operator can only be used with Ints and/or Strs -/
  | addOperands
  /-- the operator can only be used with Ints -/
  | intOperator (op : String)
  /-- the comparison can only be done with Ints -/
  | intComparison (op : String)
  /-- the operator can only be used with Bool -/
  | boolOperator (op : String)
  /-- unknown binary operator -/
  | unknownOperator (op : String)
  /-- calling an undeclared variable -/
  | undeclaredVariable (text : String)
  /-- First or Second only accepts Tuples -/
  | tupleOnly (kind : String)
  /-- If only accepts Bools as condition -/
  | ifCondition
  /-- Call can only call Functions -/
  | notFunction
  /-- expected n arguments, received m -/
  | arity (expected received : Nat)
  /-- malformed parameter in index i -/
  | malformedParameter (index : Nat)
  /-- malformed argument in index i -/
  | malformedArgument (index : Nat)
  /-- mixed parameter: name -/
  | mixedParameter (name : String)

/-- The run-time panics that the evaluator can raise on the modelled nodes. -/
inductive Panic where
  /-- integer divide by zero -/
  | divideByZero
  /-- comparing uncomparable type -/
  | uncomparable

/-- How a Go call ends: with a value and a nil error, with an error, or in a
panic. -/
inductive Outcome (α : Type) where
  | ok (value : α)
  | err (e : Error)
  | panic (p : Panic)

/-- Modelled from the spec: what the evaluator needs from the declarations of
the term structs, which are not among the sources.

The Integer payload is a signed integer; `intBits` is the width of its Go type
(the operator `%` in `BinaryNode.Eval` shows that it is a fixed-width integer
type).  `format t` is the text that the verb `%s` of `fmt.Sprintf` produces for
the term `t`, which depends on the `String` methods of the term structs. -/
structure Decls where
  intBits : Nat
  format : Term → String

/-- Two-complement wrap-around of a signed integer of the given width. -/
def wrapInt (bits : Nat) (x : Int) : Int :=
  (x + 2 ^ (bits - 1)) % 2 ^ bits - 2 ^ (bits - 1)

/-- The values of a signed integer type of the given width. -/
def inRange (bits : Nat) (x : Int) : Prop :=
  -(2 ^ (bits - 1)) ≤ x ∧ x < 2 ^ (bits - 1)

/-! ## Evaluator (`evaluator.go`) -/

/-- The type assertion `t.(StrNode)`, its boolean result. -/
def Term.isStr : Term → Bool
  | .StrNode _ => true
  | _ => false

/-- The type assertion `t.(IntNode)`: the payload and whether the assertion
holds; the payload is the zero value when it does not. -/
def Term.asInt : Term → Int × Bool
  | .IntNode v => (v, true)
  | _ => (0, false)

/-- The type assertion `t.(BoolNode)`, as `Term.asInt`. -/
def Term.asBool : Term → Bool × Bool
  | .BoolNode v => (v, true)
  | _ => (false, false)

/-- The comparison `reflect.TypeOf(lhs) == reflect.TypeOf(rhs)`. -/
def sameType : Term → Term → Bool
  | .nil, .nil => true
  | .StrNode _, .StrNode _ => true
  | .IntNode _, .IntNode _ => true
  | .BoolNode _, .BoolNode _ => true
  | .TupleNode _ _, .TupleNode _ _ => true
  | .FunctionNode _ _ _, .FunctionNode _ _ _ => true
  | .LetNode _ _ _, .LetNode _ _ _ => true
  | _, _ => false

/-- Modelled from the spec: the comparison of two `LetNode` values by `==`.
The struct is not among the sources; its fields are taken in the order of the
data model (identifier, value, next).  The comparison stops at the first field
that differs, and the two node fields hold maps, which are not comparable. -/
def letNodeEq (i j : String) : Option Bool :=
  if i = j then none else some false

/-- The Go comparison `lhs == rhs` of two interface values; `none` is the
run-time panic for operands of one and the same uncomparable dynamic type.
Values of different dynamic types are unequal.  A `TupleNode` is compared field
by field in order, stopping at the first difference.  A `FunctionNode` holds a
slice (`Parameters`) and a map (in `Env`), so its type is not comparable. -/
def goEq : Term → Term → Option Bool
  | .nil, .nil => some true
  | .StrNode a, .StrNode b => some (decide (a = b))
  | .IntNode a, .IntNode b => some (decide (a = b))
  | .BoolNode a, .BoolNode b => some (decide (a = b))
  | .TupleNode a b, .TupleNode c d =>
    match goEq a c with
    | none => none
    | some false => some false
    | some true => goEq b d
  | .FunctionNode _ _ _, .FunctionNode _ _ _ => none
  | .LetNode i _ _, .LetNode j _ _ => letNodeEq i j
  | _, _ => some false

/-- The `switch binary.Op` of `BinaryNode.Eval`, applied to the two evaluated
operands.  Sums, differences, products and quotients wrap around at the width
of the Integer type; a remainder never leaves the range of its dividend. -/
def BinaryNode.operate (D : Decls) (op : String) (lhs rhs : Term) : Outcome Term :=
  if op = "Add" then
    if lhs.isStr || rhs.isStr then
      .ok (.StrNode (D.format lhs ++ D.format rhs))
    else if lhs.asInt.2 && rhs.asInt.2 then
      .ok (.IntNode (wrapInt D.intBits (lhs.asInt.1 + rhs.asInt.1)))
    else .err .addOperands
  else if op = "Sub" ∨ op = "Mul" ∨ op = "Div" ∨ op = "Rem" then
    if !lhs.asInt.2 && !rhs.asInt.2 then .err (.intOperator op)
    else if op = "Sub" then .ok (.IntNode (wrapInt D.intBits (lhs.asInt.1 - rhs.asInt.1)))
    else if op = "Mul" then .ok (.IntNode (wrapInt D.intBits (lhs.asInt.1 * rhs.asInt.1)))
    else if rhs.asInt.1 = 0 then .panic .divideByZero
    else if op = "Div" then .ok (.IntNode (wrapInt D.intBits (Int.tdiv lhs.asInt.1 rhs.asInt.1)))
    else .ok (.IntNode (Int.tmod lhs.asInt.1 rhs.asInt.1))
  else if op = "Eq" ∨ op = "Neq" then
    match goEq lhs rhs with
    | none => .panic .uncomparable
    | some hasSameValue =>
      if op = "Eq" then .ok (.BoolNode (hasSameValue && sameType lhs rhs))
      else .ok (.BoolNode (!hasSameValue || !sameType lhs rhs))
  else if op = "Lt" ∨ op = "Gt" ∨ op = "Lte" ∨ op = "Gte" then
    if !lhs.asInt.2 && !rhs.asInt.2 then .err (.intComparison op)
    else if op = "Lt" then .ok (.BoolNode (decide (lhs.asInt.1 < rhs.asInt.1)))
    else if op = "Gt" then .ok (.BoolNode (decide (lhs.asInt.1 > rhs.asInt.1)))
    else if op = "Lte" then .ok (.BoolNode (decide (lhs.asInt.1 ≤ rhs.asInt.1)))
    else .ok (.BoolNode (decide (lhs.asInt.1 ≥ rhs.asInt.1)))
  else if op = "And" ∨ op = "Or" then
    if !lhs.asBool.2 && !rhs.asBool.2 then .err (.boolOperator op)
    else if op = "And" then .ok (.BoolNode (lhs.asBool.1 && rhs.asBool.1))
    else .ok (.BoolNode (lhs.asBool.1 || rhs.asBool.1))
  else .err (.unknownOperator op)

/-- The result of one call of `evalNode`: `none` when the fuel ran out,
otherwise the outcome and the environment as the call leaves it. -/
abbrev Result (α : Type) := Option (Outcome α × Environment)

/-- The recursive calls of `evalNode` that a method makes. -/
abbrev Evaluator := Node → Environment → Result Term

/-- The method `PrintNode.Eval`. -/
def PrintNode.Eval (ev : Evaluator) (value : Node) (env : Environment) : Result Term :=
  ev value env

/-- The method `BinaryNode.Eval`. -/
def BinaryNode.Eval (D : Decls) (ev : Evaluator) (op : String) (lhs rhs : Node)
    (env : Environment) : Result Term :=
  match ev lhs env with
  | none => none
  | some (.err e, env1) => some (.err e, env1)
  | some (.panic p, env1) => some (.panic p, env1)
  | some (.ok l, env1) =>
    match ev rhs env1 with
    | none => none
    | some (.err e, env2) => some (.err e, env2)
    | some (.panic p, env2) => some (.panic p, env2)
    | some (.ok r, env2) => some (BinaryNode.operate D op l r, env2)

/-- The method `LetNode.Eval`; it returns an `error` only. -/
def LetNode.Eval (ev : Evaluator) (identifier : String) (value next : Node)
    (env : Environment) : Result Unit :=
  match ev next (env.Set identifier value) with
  | none => none
  | some (.err e, env1) => some (.err e, env1)
  | some (.panic p, env1) => some (.panic p, env1)
  | some (.ok _, env1) => some (.ok (), env1)

/-- The method `VarNode.Eval`. -/
def VarNode.Eval (ev : Evaluator) (text : String) (env : Environment) : Result Term :=
  match env.Get text with
  | none => some (.err (.undeclaredVariable text), env)
  | some bound => ev bound env

/-- The method `TupleNode.Eval`: an error of either component is answered with
the empty `TupleNode{}` and a nil error. -/
def TupleNode.Eval (ev : Evaluator) (first second : Node) (env : Environment) : Result Term :=
  match ev first env with
  | none => none
  | some (.panic p, env1) => some (.panic p, env1)
  | some (.err _, env1) => some (.ok (.TupleNode .nil .nil), env1)
  | some (.ok f, env1) =>
    match ev second env1 with
    | none => none
    | some (.panic p, env2) => some (.panic p, env2)
    | some (.err _, env2) => some (.ok (.TupleNode .nil .nil), env2)
    | some (.ok s, env2) => some (.ok (.TupleNode f s), env2)

/-- The method `TupleFunction.Eval`; `kind` is `First` or `Second`. -/
def TupleFunction.Eval (ev : Evaluator) (kind : String) (value : Node)
    (env : Environment) : Result Term :=
  match ev value env with
  | none => none
  | some (.err e, env1) => some (.err e, env1)
  | some (.panic p, env1) => some (.panic p, env1)
  | some (.ok (.TupleNode first second), env1) =>
    if kind = "Second" then some (.ok second, env1) else some (.ok first, env1)
  | some (.ok _, env1) => some (.err (.tupleOnly kind), env1)

/-- The method `IfNode.Eval`. -/
def IfNode.Eval (ev : Evaluator) (condition thenBranch elseBranch : Node)
    (env : Environment) : Result Term :=
  match ev condition env with
  | none => none
  | some (.err e, env1) => some (.err e, env1)
  | some (.panic p, env1) => some (.panic p, env1)
  | some (.ok (.BoolNode c), env1) => ev (if c then thenBranch else elseBranch) env1
  | some (.ok _, env1) => some (.err .ifCondition, env1)

/-- The method `FunctionNode.captureEnv`: the environment of the function after
the loop.  `fenv` is `function.Env`. -/
def FunctionNode.captureEnv (fenv env : Environment) : Environment :=
  env.SymbolTable.foldl copyEntry fenv

/-- The loop of `FunctionNode.setParameters` from index `argIndex` on, over the
remaining parameters and arguments (of equal length). -/
def setParametersFrom (argIndex : Nat) :
    List (Option String) → List (Option Node) → Environment → Option Error × Environment
  | none :: _, _ :: _, fenv => (some (.malformedParameter argIndex), fenv)
  | some _ :: _, none :: _, fenv => (some (.malformedArgument argIndex), fenv)
  | some parameterName :: parameters, some argument :: arguments, fenv =>
    match fenv.Get parameterName with
    | some _ => (some (.mixedParameter parameterName), fenv)
    | none => setParametersFrom (argIndex + 1) parameters arguments
        (fenv.Set parameterName argument)
  | _, _, fenv => (none, fenv)

/-- The method `FunctionNode.setParameters`: the returned `error` (`none` for
nil) and `function.Env` as the call leaves it. -/
def FunctionNode.setParameters (parameters : List (Option String)) (fenv : Environment)
    (arguments : List (Option Node)) : Option Error × Environment :=
  if parameters.length ≠ arguments.length then
    (some (.arity parameters.length arguments.length), fenv)
  else setParametersFrom 0 parameters arguments fenv

/-- The method `CallNode.Eval`.  The body runs in the environment of the
function; the caller keeps its own environment, as the evaluation of the
callee left it. -/
def CallNode.Eval (ev : Evaluator) (callee : Node) (arguments : List (Option Node))
    (env : Environment) : Result Term :=
  match ev callee env with
  | none => none
  | some (.err e, env1) => some (.err e, env1)
  | some (.panic p, env1) => some (.panic p, env1)
  | some (.ok (.FunctionNode parameters value fenv), env1) =>
    match FunctionNode.setParameters parameters fenv arguments with
    | (some e, _) => some (.err e, env1)
    | (none, fenv1) =>
      match ev value (FunctionNode.captureEnv fenv1 env1) with
      | none => none
      | some (r, _) => some (r, env1)
  | some (.ok _, env1) => some (.err .notFunction, env1)

/-- The kinds that `evalNode` dispatches on. -/
def knownKinds : List String :=
  ["Str", "Int", "Bool", "Print", "Binary", "Let", "Var", "Tuple", "First", "Second", "If",
    "Function", "Call"]

/-- Modelled from the spec: `inspectFunction`, which is not among the sources.
Each function value owns its own captured environment, created when the
function term is constructed (the inspector is not handed the environment of
the caller). -/
def inspectFunction (parameters : List (Option String)) (value : Node) : Term :=
  .FunctionNode parameters value NewEnvironment

/-- The function `evalNode`.  A literal node that its inspector accepts is
returned as its value term. -/
def evalNode (D : Decls) : Nat → Node → Environment → Result Term
  | 0, _, _ => none
  | fuel + 1, node, env =>
    match node with
    | .Str value => some (.ok (.StrNode value), env)
    | .Int value => some (.ok (.IntNode value), env)
    | .Bool value => some (.ok (.BoolNode value), env)
    | .Print value => PrintNode.Eval (evalNode D fuel) value env
    | .Binary op lhs rhs => BinaryNode.Eval D (evalNode D fuel) op lhs rhs env
    | .Let identifier value next =>
      match LetNode.Eval (evalNode D fuel) identifier value next env with
      | none => none
      | some (.err e, env1) => some (.err e, env1)
      | some (.panic p, env1) => some (.panic p, env1)
      | some (.ok _, env1) => some (.ok (.LetNode identifier value next), env1)
    | .Var text => VarNode.Eval (evalNode D fuel) text env
    | .Tuple first second => TupleNode.Eval (evalNode D fuel) first second env
    | .First value => TupleFunction.Eval (evalNode D fuel) "First" value env
    | .Second value => TupleFunction.Eval (evalNode D fuel) "Second" value env
    | .If condition thenBranch elseBranch =>
      IfNode.Eval (evalNode D fuel) condition thenBranch elseBranch env
    | .Function parameters value => some (.ok (inspectFunction parameters value), env)
    | .Call callee arguments => CallNode.Eval (evalNode D fuel) callee arguments env
    | .Other kind =>
      if kind ∈ knownKinds then some (.err (.inspection kind), env)
      else some (.err (.unknownTerm kind), env)

/-- The root container handed to `EvalTree`, seen through its field
`expression`: absent, holding something that is not an object, holding an
object without entries, or holding a node. -/
inductive Tree where
  | missing
  | notObject
  | empty
  | expression (node : Node)

/-- The function `EvalTree`; it returns an `error` only. -/
def EvalTree (D : Decls) (fuel : Nat) (tree : Tree) (env : Environment) : Result Unit :=
  match tree with
  | .expression node =>
    match evalNode D fuel node env with
    | none => none
    | some (.err e, env1) => some (.err e, env1)
    | some (.panic p, env1) => some (.panic p, env1)
    | some (.ok _, env1) => some (.ok (), env1)
  | _ => some (.err .emptyTree, env)

/-! ## Notions used in the statements -/

/-- Every result of `ev` is also a result of `ev2`. -/
def Evaluator.below (ev ev2 : Evaluator) : Prop :=
  ∀ node env r, ev node env = some r → ev2 node env = some r

/-- Terms that Go can compare without a panic whatever the other operand is:
no `FunctionNode` and no `LetNode` occurs in them. -/
def Term.comparable : Term → Bool
  | .nil => true
  | .StrNode _ => true
  | .IntNode _ => true
  | .BoolNode _ => true
  | .TupleNode a b => a.comparable && b.comparable
  | .FunctionNode _ _ _ => false
  | .LetNode _ _ _ => false

/-- A rendering of terms that gives a String as its text, an Integer in
decimal, a Boolean as `true` or `false` and the nil interface value as `fmt`
prints it under `%s`; it instantiates `Decls.format` in the examples, none of
which renders a Tuple, Function or Let term (left empty here). -/
def sampleFormat : Term → String
  | .StrNode v => v
  | .IntNode v => toString v
  | .BoolNode v => toString v
  | .nil => "%!s(<nil>)"
  | _ => ""

/-- Declarations with a 64-bit Integer payload (Go `int` or `int64`). -/
def decls64 : Decls := ⟨64, sampleFormat⟩

/-- Declarations with a 32-bit Integer payload (Go `int32`). -/
def decls32 : Decls := ⟨32, sampleFormat⟩

/-- The body of the factorial function: `if n == 0 then 1 else n * fact(n - 1)`. -/
def factBody : Node :=
  .If (.Binary "Eq" (.Var "n") (.Int 0)) (.Int 1)
    (.Binary "Mul" (.Var "n") (.Call (.Var "fact") [some (.Binary "Sub" (.Var "n") (.Int 1))]))

/-- The factorial function, a `Function` node with the one parameter `n`. -/
def factFunction : Node := .Function [some "n"] factBody

/-- The end-to-end program: `let fact = fn (n) => ...; fact(k)`. -/
def factProgram (k : Int) : Node :=
  .Let "fact" factFunction (.Call (.Var "fact") [some (.Int k)])

/-- The root environment after the `Let` of `factProgram`. -/
def factEnv0 : Environment := NewEnvironment.Set "fact" factFunction

/-- The environment of the function in the call `fact(5)`. -/
def factEnvA : Environment := FunctionNode.captureEnv (NewEnvironment.Set "n" (.Int 5)) factEnv0

/-- The environment of the function in the recursive call `fact(n - 1)`. -/
def factEnvB : Environment :=
  FunctionNode.captureEnv (NewEnvironment.Set "n" (.Binary "Sub" (.Var "n") (.Int 1))) factEnvA

/-- Every key bound in `env` is bound in `env2`. -/
def Environment.keysWithin (env env2 : Environment) : Prop :=
  ∀ key, env.Get key ≠ none → env2.Get key ≠ none

/-- The errors that an evaluation started in `env` cannot return: the error of
`EvalTree`, and the undeclared-variable error for an identifier bound in
`env`. -/
def Error.excludedIn (env : Environment) : Error → Prop
  | .emptyTree => True
  | .undeclaredVariable text => env.Get text ≠ none
  | _ => False

/-- An evaluator that keeps every key of the environment it is given and
returns none of the errors excluded there. -/
def Evaluator.regular (ev : Evaluator) : Prop :=
  ∀ node env r env2, ev node env = some (r, env2) →
    env.keysWithin env2 ∧ ∀ e, r = .err e → ¬ e.excludedIn env

/-- The operator tags that `BinaryNode.Eval` knows. -/
def knownOperators : List String :=
  ["Add", "Sub", "Mul", "Div", "Rem", "Eq", "Neq", "Lt", "Gt", "Lte", "Gte", "And", "Or"]

/-- The environment `fenv` after binding each name to the node at the same
position, in order. -/
def bindParameters (fenv : Environment) : List String → List Node → Environment
  | name :: names, node :: nodes => bindParameters (fenv.Set name node) names nodes
  | _, _ => fenv

/-! ## Unfolding `evalNode` -/

theorem evalNode_zero (D : Decls) (node : Node) (env : Environment) :
    evalNode D 0 node env = none := rfl

theorem evalNode_Str (D : Decls) (fuel : Nat) (value : String) (env : Environment) :
    evalNode D (fuel + 1) (.Str value) env = some (.ok (.StrNode value), env) := rfl

theorem evalNode_Int (D : Decls) (fuel : Nat) (value : Int) (env : Environment) :
    evalNode D (fuel + 1) (.Int value) env = some (.ok (.IntNode value), env) := rfl

theorem evalNode_Bool (D : Decls) (fuel : Nat) (value : Bool) (env : Environment) :
    evalNode D (fuel + 1) (.Bool value) env = some (.ok (.BoolNode value), env) := rfl

theorem evalNode_Print (D : Decls) (fuel : Nat) (value : Node) (env : Environment) :
    evalNode D (fuel + 1) (.Print value) env = PrintNode.Eval (evalNode D fuel) value env := rfl

theorem evalNode_Binary (D : Decls) (fuel : Nat) (op : String) (lhs rhs : Node)
    (env : Environment) :
    evalNode D (fuel + 1) (.Binary op lhs rhs) env
      = BinaryNode.Eval D (evalNode D fuel) op lhs rhs env := rfl

theorem evalNode_Let (D : Decls) (fuel : Nat) (identifier : String) (value next : Node)
    (env : Environment) :
    evalNode D (fuel + 1) (.Let identifier value next) env
      = (match LetNode.Eval (evalNode D fuel) identifier value next env with
        | none => none
        | some (.err e, env1) => some (.err e, env1)
        | some (.panic p, env1) => some (.panic p, env1)
        | some (.ok _, env1) => some (.ok (.LetNode identifier value next), env1)) := rfl

theorem evalNode_Var (D : Decls) (fuel : Nat) (text : String) (env : Environment) :
    evalNode D (fuel + 1) (.Var text) env = VarNode.Eval (evalNode D fuel) text env := rfl

theorem evalNode_Tuple (D : Decls) (fuel : Nat) (first second : Node) (env : Environment) :
    evalNode D (fuel + 1) (.Tuple first second) env
      = TupleNode.Eval (evalNode D fuel) first second env := rfl

theorem evalNode_First (D : Decls) (fuel : Nat) (value : Node) (env : Environment) :
    evalNode D (fuel + 1) (.First value) env
      = TupleFunction.Eval (evalNode D fuel) "First" value env := rfl

theorem evalNode_Second (D : Decls) (fuel : Nat) (value : Node) (env : Environment) :
    evalNode D (fuel + 1) (.Second value) env
      = TupleFunction.Eval (evalNode D fuel) "Second" value env := rfl

theorem evalNode_If (D : Decls) (fuel : Nat) (condition thenBranch elseBranch : Node)
    (env : Environment) :
    evalNode D (fuel + 1) (.If condition thenBranch elseBranch) env
      = IfNode.Eval (evalNode D fuel) condition thenBranch elseBranch env := rfl

theorem evalNode_Function (D : Decls) (fuel : Nat) (parameters : List (Option String))
    (value : Node) (env : Environment) :
    evalNode D (fuel + 1) (.Function parameters value) env
      = some (.ok (.FunctionNode parameters value NewEnvironment), env) := rfl

theorem evalNode_Call (D : Decls) (fuel : Nat) (callee : Node) (arguments : List (Option Node))
    (env : Environment) :
    evalNode D (fuel + 1) (.Call callee arguments) env
      = CallNode.Eval (evalNode D fuel) callee arguments env := rfl

theorem evalNode_Other (D : Decls) (fuel : Nat) (kind : String) (env : Environment) :
    evalNode D (fuel + 1) (.Other kind) env
      = (if kind ∈ knownKinds then some (.err (.inspection kind), env)
        else some (.err (.unknownTerm kind), env)) := rfl


/-! ## More fuel keeps every result -/

theorem PrintNode_Eval_mono {ev ev2 : Evaluator} (h : Evaluator.below ev ev2) (value : Node)
    (env : Environment) (r : Outcome Term × Environment)
    (hr : PrintNode.Eval ev value env = some r) : PrintNode.Eval ev2 value env = some r :=
  h _ _ _ hr

theorem BinaryNode_Eval_mono (D : Decls) {ev ev2 : Evaluator} (h : Evaluator.below ev ev2)
    (op : String) (lhs rhs : Node) (env : Environment) (r : Outcome Term × Environment)
    (hr : BinaryNode.Eval D ev op lhs rhs env = some r) :
    BinaryNode.Eval D ev2 op lhs rhs env = some r := by
  unfold BinaryNode.Eval at hr ⊢
  cases h1 : ev lhs env with
  | none => simp [h1] at hr
  | some p =>
    rw [h1] at hr
    rw [h _ _ _ h1]
    obtain ⟨o, env1⟩ := p
    cases o with
    | err e => exact hr
    | panic q => exact hr
    | ok l =>
      simp only at hr ⊢
      cases h2 : ev rhs env1 with
      | none => simp [h2] at hr
      | some p2 =>
        rw [h2] at hr
        rw [h _ _ _ h2]
        exact hr

theorem LetNode_Eval_mono {ev ev2 : Evaluator} (h : Evaluator.below ev ev2)
    (identifier : String) (value next : Node) (env : Environment) (r : Outcome Unit × Environment)
    (hr : LetNode.Eval ev identifier value next env = some r) :
    LetNode.Eval ev2 identifier value next env = some r := by
  unfold LetNode.Eval at hr ⊢
  cases h1 : ev next (env.Set identifier value) with
  | none => simp [h1] at hr
  | some p =>
    rw [h1] at hr
    rw [h _ _ _ h1]
    exact hr

theorem VarNode_Eval_mono {ev ev2 : Evaluator} (h : Evaluator.below ev ev2)
    (text : String) (env : Environment) (r : Outcome Term × Environment)
    (hr : VarNode.Eval ev text env = some r) : VarNode.Eval ev2 text env = some r := by
  unfold VarNode.Eval at hr ⊢
  cases h1 : env.Get text with
  | none => simpa [h1] using hr
  | some bound =>
    simp only [h1] at hr ⊢
    exact h _ _ _ hr

theorem TupleNode_Eval_mono {ev ev2 : Evaluator} (h : Evaluator.below ev ev2)
    (first second : Node) (env : Environment) (r : Outcome Term × Environment)
    (hr : TupleNode.Eval ev first second env = some r) :
    TupleNode.Eval ev2 first second env = some r := by
  unfold TupleNode.Eval at hr ⊢
  cases h1 : ev first env with
  | none => simp [h1] at hr
  | some p =>
    rw [h1] at hr
    rw [h _ _ _ h1]
    obtain ⟨o, env1⟩ := p
    cases o with
    | err e => exact hr
    | panic q => exact hr
    | ok l =>
      simp only at hr ⊢
      cases h2 : ev second env1 with
      | none => simp [h2] at hr
      | some p2 =>
        rw [h2] at hr
        rw [h _ _ _ h2]
        exact hr

theorem TupleFunction_Eval_mono {ev ev2 : Evaluator} (h : Evaluator.below ev ev2)
    (kind : String) (value : Node) (env : Environment) (r : Outcome Term × Environment)
    (hr : TupleFunction.Eval ev kind value env = some r) :
    TupleFunction.Eval ev2 kind value env = some r := by
  unfold TupleFunction.Eval at hr ⊢
  cases h1 : ev value env with
  | none => simp [h1] at hr
  | some p =>
    rw [h1] at hr
    rw [h _ _ _ h1]
    exact hr

theorem IfNode_Eval_mono {ev ev2 : Evaluator} (h : Evaluator.below ev ev2)
    (condition thenBranch elseBranch : Node) (env : Environment)
    (r : Outcome Term × Environment)
    (hr : IfNode.Eval ev condition thenBranch elseBranch env = some r) :
    IfNode.Eval ev2 condition thenBranch elseBranch env = some r := by
  unfold IfNode.Eval at hr ⊢
  cases h1 : ev condition env with
  | none => simp [h1] at hr
  | some p =>
    rw [h1] at hr
    rw [h _ _ _ h1]
    obtain ⟨o, env1⟩ := p
    cases o with
    | err e => exact hr
    | panic q => exact hr
    | ok c =>
      cases c with
      | BoolNode b => exact h _ _ _ hr
      | _ => exact hr

theorem CallNode_Eval_mono {ev ev2 : Evaluator} (h : Evaluator.below ev ev2)
    (callee : Node) (arguments : List (Option Node)) (env : Environment)
    (r : Outcome Term × Environment)
    (hr : CallNode.Eval ev callee arguments env = some r) :
    CallNode.Eval ev2 callee arguments env = some r := by
  unfold CallNode.Eval at hr ⊢
  cases h1 : ev callee env with
  | none => simp [h1] at hr
  | some p =>
    rw [h1] at hr
    rw [h _ _ _ h1]
    obtain ⟨o, env1⟩ := p
    cases o with
    | err e => exact hr
    | panic q => exact hr
    | ok c =>
      cases c with
      | FunctionNode parameters value fenv =>
        simp only at hr ⊢
        cases h2 : FunctionNode.setParameters parameters fenv arguments with
        | mk oe fenv1 =>
          rw [h2] at hr
          cases oe with
          | some e => exact hr
          | none =>
            simp only at hr ⊢
            cases h3 : ev value (FunctionNode.captureEnv fenv1 env1) with
            | none => simp [h3] at hr
            | some p3 =>
              rw [h3] at hr
              rw [h _ _ _ h3]
              exact hr
      | _ => exact hr


/-- More fuel never changes a result: what `evalNode` returns with some fuel
it returns with one unit more. -/
theorem evalNode_succ (D : Decls) (fuel : Nat) :
    Evaluator.below (evalNode D fuel) (evalNode D (fuel + 1)) := by
  induction fuel with
  | zero => intro node env r hr; simp [evalNode_zero] at hr
  | succ n ih =>
    intro node env r hr
    cases node with
    | Str v => rw [evalNode_Str] at hr ⊢; exact hr
    | Int v => rw [evalNode_Int] at hr ⊢; exact hr
    | Bool v => rw [evalNode_Bool] at hr ⊢; exact hr
    | Print v =>
      rw [evalNode_Print] at hr ⊢
      exact PrintNode_Eval_mono ih _ _ _ hr
    | Binary op l r2 =>
      rw [evalNode_Binary] at hr ⊢
      exact BinaryNode_Eval_mono D ih _ _ _ _ _ hr
    | Let i v nx =>
      rw [evalNode_Let] at hr ⊢
      cases h1 : LetNode.Eval (evalNode D n) i v nx env with
      | none => simp [h1] at hr
      | some p =>
        rw [h1] at hr
        rw [LetNode_Eval_mono ih _ _ _ _ _ h1]
        exact hr
    | Var t =>
      rw [evalNode_Var] at hr ⊢
      exact VarNode_Eval_mono ih _ _ _ hr
    | Tuple a b =>
      rw [evalNode_Tuple] at hr ⊢
      exact TupleNode_Eval_mono ih _ _ _ _ hr
    | First v =>
      rw [evalNode_First] at hr ⊢
      exact TupleFunction_Eval_mono ih _ _ _ _ hr
    | Second v =>
      rw [evalNode_Second] at hr ⊢
      exact TupleFunction_Eval_mono ih _ _ _ _ hr
    | If c t e =>
      rw [evalNode_If] at hr ⊢
      exact IfNode_Eval_mono ih _ _ _ _ _ hr
    | Function ps v => rw [evalNode_Function] at hr ⊢; exact hr
    | Call c args =>
      rw [evalNode_Call] at hr ⊢
      exact CallNode_Eval_mono ih _ _ _ _ hr
    | Other k => rw [evalNode_Other] at hr ⊢; exact hr

/-- A result obtained with some fuel is obtained with any larger fuel. -/
theorem evalNode_fuel_le (D : Decls) {fuel fuel2 : Nat} (hle : fuel ≤ fuel2) (node : Node)
    (env : Environment) (r : Outcome Term × Environment)
    (hr : evalNode D fuel node env = some r) : evalNode D fuel2 node env = some r := by
  induction hle with
  | refl => exact hr
  | step _ ih => exact evalNode_succ D _ _ _ _ ih

/-! ## Evaluation steps -/

theorem evalNode_Var_bound (D : Decls) (fuel : Nat) (text : String) (env : Environment)
    (bound : Node) (h : env.Get text = some bound) :
    evalNode D (fuel + 1) (.Var text) env = evalNode D fuel bound env := by
  rw [evalNode_Var, VarNode.Eval, h]

theorem evalNode_Binary_ok (D : Decls) (fuel : Nat) (op : String) (lhs rhs : Node)
    (env env1 env2 : Environment) (l r : Term)
    (hl : evalNode D fuel lhs env = some (.ok l, env1))
    (hr : evalNode D fuel rhs env1 = some (.ok r, env2)) :
    evalNode D (fuel + 1) (.Binary op lhs rhs) env
      = some (BinaryNode.operate D op l r, env2) := by
  rw [evalNode_Binary, BinaryNode.Eval, hl]
  simp only [hr]

theorem evalNode_Binary_lhs_none (D : Decls) (fuel : Nat) (op : String) (lhs rhs : Node)
    (env : Environment) (hl : evalNode D fuel lhs env = none) :
    evalNode D (fuel + 1) (.Binary op lhs rhs) env = none := by
  rw [evalNode_Binary, BinaryNode.Eval, hl]

theorem evalNode_Binary_rhs_none (D : Decls) (fuel : Nat) (op : String) (lhs rhs : Node)
    (env env1 : Environment) (l : Term)
    (hl : evalNode D fuel lhs env = some (.ok l, env1))
    (hr : evalNode D fuel rhs env1 = none) :
    evalNode D (fuel + 1) (.Binary op lhs rhs) env = none := by
  rw [evalNode_Binary, BinaryNode.Eval, hl]
  simp only [hr]

theorem evalNode_If_bool (D : Decls) (fuel : Nat) (condition thenBranch elseBranch : Node)
    (env env1 : Environment) (c : Bool)
    (hc : evalNode D fuel condition env = some (.ok (.BoolNode c), env1)) :
    evalNode D (fuel + 1) (.If condition thenBranch elseBranch) env
      = evalNode D fuel (if c then thenBranch else elseBranch) env1 := by
  rw [evalNode_If, IfNode.Eval, hc]

theorem evalNode_If_none (D : Decls) (fuel : Nat) (condition thenBranch elseBranch : Node)
    (env : Environment) (hc : evalNode D fuel condition env = none) :
    evalNode D (fuel + 1) (.If condition thenBranch elseBranch) env = none := by
  rw [evalNode_If, IfNode.Eval, hc]

theorem evalNode_Call_bound (D : Decls) (fuel : Nat) (callee : Node)
    (arguments : List (Option Node)) (env env1 fenv fenv1 : Environment)
    (parameters : List (Option String)) (value : Node)
    (hc : evalNode D fuel callee env = some (.ok (.FunctionNode parameters value fenv), env1))
    (hp : FunctionNode.setParameters parameters fenv arguments = (none, fenv1)) :
    evalNode D (fuel + 1) (.Call callee arguments) env
      = (match evalNode D fuel value (FunctionNode.captureEnv fenv1 env1) with
        | none => none
        | some (r, _) => some (r, env1)) := by
  rw [evalNode_Call, CallNode.Eval, hc]
  simp only [hp]

theorem var_bound_to_itself_loops (D : Decls) (env : Environment)
    (h : env.Get "n" = some (.Binary "Sub" (.Var "n") (.Int 1))) (fuel : Nat) :
    evalNode D fuel (.Var "n") env = none
      ∧ evalNode D fuel (.Binary "Sub" (.Var "n") (.Int 1)) env = none := by
  induction fuel with
  | zero => exact ⟨rfl, rfl⟩
  | succ k ih =>
    constructor
    · rw [evalNode_Var, VarNode.Eval, h]; exact ih.2
    · rw [evalNode_Binary, BinaryNode.Eval, ih.1]

theorem fact_body_second_call (D : Decls) (k : Nat) :
    evalNode D (k + 2) factBody factEnvB = none := by
  have hloop := (var_bound_to_itself_loops D factEnvB rfl k).1
  exact evalNode_If_none D _ _ _ _ _ (evalNode_Binary_lhs_none D _ _ _ _ _ hloop)

theorem fact_recursive_call (D : Decls) (k : Nat) :
    evalNode D (k + 4) (.Call (.Var "fact") [some (.Binary "Sub" (.Var "n") (.Int 1))]) factEnvA
      = none := by
  have hcallee : evalNode D (k + 3) (.Var "fact") factEnvA
      = some (.ok (.FunctionNode [some "n"] factBody NewEnvironment), factEnvA) := by
    rw [evalNode_Var_bound D _ "fact" factEnvA factFunction rfl]; rfl
  rw [evalNode_Call_bound D _ _ [some (.Binary "Sub" (.Var "n") (.Int 1))] _ _ _
    (NewEnvironment.Set "n" (.Binary "Sub" (.Var "n") (.Int 1))) _ _ hcallee rfl]
  have h := fact_body_second_call D (k + 1)
  have e : FunctionNode.captureEnv (NewEnvironment.Set "n" (.Binary "Sub" (.Var "n") (.Int 1)))
      factEnvA = factEnvB := rfl
  rw [e, h]

theorem fact_body_first_call (D : Decls) (k : Nat) :
    evalNode D (k + 6) factBody factEnvA = none := by
  have hn : ∀ j, evalNode D (j + 2) (.Var "n") factEnvA = some (.ok (.IntNode 5), factEnvA) := by
    intro j
    rw [evalNode_Var_bound D _ "n" factEnvA (.Int 5) rfl]; rfl
  have hcond : evalNode D (k + 5) (.Binary "Eq" (.Var "n") (.Int 0)) factEnvA
      = some (.ok (.BoolNode false), factEnvA) := by
    rw [evalNode_Binary_ok D _ _ _ _ _ _ _ _ _ (hn (k + 2)) (evalNode_Int D _ 0 _)]; rfl
  unfold factBody
  rw [evalNode_If_bool D _ _ _ _ _ _ _ hcond]
  exact evalNode_Binary_rhs_none D _ _ _ _ _ _ _ (hn (k + 2)) (fact_recursive_call D k)

theorem fact_call_base (D : Decls) (k : Nat) :
    evalNode D (k + 7) (.Call (.Var "fact") [some (.Int 5)]) factEnv0 = none := by
  have hcallee : evalNode D (k + 6) (.Var "fact") factEnv0
      = some (.ok (.FunctionNode [some "n"] factBody NewEnvironment), factEnv0) := by
    rw [evalNode_Var_bound D _ "fact" factEnv0 factFunction rfl]; rfl
  rw [evalNode_Call_bound D _ _ [some (.Int 5)] _ _ _ (NewEnvironment.Set "n" (.Int 5)) _ _
    hcallee rfl]
  have e : FunctionNode.captureEnv (NewEnvironment.Set "n" (.Int 5)) factEnv0 = factEnvA := rfl
  rw [e, fact_body_first_call D k]

theorem fact_call_diverges (D : Decls) (fuel : Nat) :
    evalNode D fuel (.Call (.Var "fact") [some (.Int 5)]) factEnv0 = none := by
  cases h : evalNode D fuel (.Call (.Var "fact") [some (.Int 5)]) factEnv0 with
  | none => rfl
  | some r =>
    have h2 := evalNode_fuel_le D (Nat.le_add_left fuel 7) _ _ _ h
    rw [Nat.add_comm, fact_call_base D fuel] at h2
    cases h2

theorem fact_program_base (D : Decls) (k : Nat) :
    evalNode D (k + 8) (factProgram 5) NewEnvironment = none := by
  unfold factProgram
  rw [evalNode_Let, LetNode.Eval]
  have e : NewEnvironment.Set "fact" factFunction = factEnv0 := rfl
  rw [e, fact_call_base D k]

theorem fact_program_diverges (D : Decls) (fuel : Nat) :
    evalNode D fuel (factProgram 5) NewEnvironment = none := by
  cases h : evalNode D fuel (factProgram 5) NewEnvironment with
  | none => rfl
  | some r =>
    have h2 := evalNode_fuel_le D (Nat.le_add_left fuel 8) _ _ _ h
    have h3 := fact_program_base D fuel
    rw [Nat.add_comm] at h2
    rw [h3] at h2
    cases h2

/-! ## Environment lemmas -/

theorem lookupEntry_setEntry_same (table : List (String × Node)) (identifier : String)
    (value : Node) : lookupEntry (setEntry table identifier value) identifier = some value := by
  induction table with
  | nil => simp [setEntry, lookupEntry]
  | cons entry rest ih =>
    obtain ⟨k, v⟩ := entry
    by_cases h : k = identifier
    · simp [setEntry, lookupEntry, h]
    · simp [setEntry, lookupEntry, h, ih]

theorem lookupEntry_setEntry_other (table : List (String × Node)) (identifier key : String)
    (value : Node) (hne : key ≠ identifier) :
    lookupEntry (setEntry table identifier value) key = lookupEntry table key := by
  induction table with
  | nil => simp [setEntry, lookupEntry, Ne.symm hne]
  | cons entry rest ih =>
    obtain ⟨k, v⟩ := entry
    by_cases h : k = identifier
    · subst h
      simp [setEntry, lookupEntry, Ne.symm hne]
    · by_cases h2 : k = key
      · subst h2
        simp [setEntry, lookupEntry, h]
      · simp [setEntry, lookupEntry, h, h2, ih]

theorem Environment.Get_Set_same (env : Environment) (identifier : String) (value : Node) :
    (env.Set identifier value).Get identifier = some value :=
  lookupEntry_setEntry_same _ _ _

theorem Environment.Get_Set_other (env : Environment) (identifier key : String) (value : Node)
    (hne : key ≠ identifier) : (env.Set identifier value).Get key = env.Get key :=
  lookupEntry_setEntry_other _ _ _ _ hne

/-! ## C1: Let -/

/-- C1, as stated, fails: with enough fuel `Let("x", Int 5, Var "x")` evaluates
to the `Let` term itself, and with no fuel at all does it evaluate to
`Int 5`. -/
theorem let_of_literal_is_not_the_literal :
    evalNode decls64 3 (.Let "x" (.Int 5) (.Var "x")) NewEnvironment
        = some (.ok (.LetNode "x" (.Int 5) (.Var "x")), NewEnvironment.Set "x" (.Int 5))
      ∧ evalNode decls64 2 (.Var "x") (NewEnvironment.Set "x" (.Int 5))
        = some (.ok (.IntNode 5), NewEnvironment.Set "x" (.Int 5))
      ∧ ¬ ∃ (D : Decls) (fuel : Nat) (env1 : Environment),
        evalNode D fuel (.Let "x" (.Int 5) (.Var "x")) NewEnvironment
          = some (.ok (.IntNode 5), env1) := by
  refine ⟨rfl, rfl, ?_⟩
  rintro ⟨D, fuel, env1, h⟩
  cases fuel with
  | zero => simp [evalNode_zero] at h
  | succ k =>
    rw [evalNode_Let] at h
    split at h <;> simp at h

/-- C1 (amended): `evalNode` on `Let(id, v, n)` binds `id` to the unevaluated
node `v`, overwriting an earlier binding and leaving every other key as it
was, and evaluates `n` in that environment.  An error or panic of `n` is
passed on; when `n` evaluates to a value, the result is not that value but the
`Let` term itself, and the environment is the one that `n` left.  So
`Let("x", Int 5, Var "x")` evaluates to the term `Let("x", Int 5, Var "x")`. -/
theorem let_binds_and_returns_let_term (D : Decls) (fuel : Nat) (identifier : String)
    (value next : Node) (env : Environment) :
    evalNode D (fuel + 1) (.Let identifier value next) env
        = (match evalNode D fuel next (env.Set identifier value) with
          | none => none
          | some (.err e, env1) => some (.err e, env1)
          | some (.panic p, env1) => some (.panic p, env1)
          | some (.ok _, env1) => some (.ok (.LetNode identifier value next), env1))
      ∧ (env.Set identifier value).Get identifier = some value
      ∧ (∀ key, key ≠ identifier → (env.Set identifier value).Get key = env.Get key)
      ∧ evalNode D (fuel + 3) (.Let "x" (.Int 5) (.Var "x")) NewEnvironment
        = some (.ok (.LetNode "x" (.Int 5) (.Var "x")), NewEnvironment.Set "x" (.Int 5)) := by
  refine ⟨?_, Environment.Get_Set_same _ _ _, fun key h => Environment.Get_Set_other _ _ _ _ h, ?_⟩
  · rw [evalNode_Let, LetNode.Eval]
    cases evalNode D fuel next (env.Set identifier value) with
    | none => rfl
    | some p =>
      obtain ⟨o, env1⟩ := p
      cases o <;> rfl
  · exact evalNode_fuel_le D (Nat.le_add_left 3 fuel) _ _ _ rfl

/-- C1, an instance: a second `Let` of `x` overwrites the first, the key `y`
keeps its binding, and the result is the outer `Let` term. -/
theorem let_binds_and_returns_let_term_witness :
    evalNode decls64 4 (.Let "x" (.Int 2) (.Var "x"))
        ((NewEnvironment.Set "x" (.Int 1)).Set "y" (.Int 7))
        = some (.ok (.LetNode "x" (.Int 2) (.Var "x")),
            ((NewEnvironment.Set "x" (.Int 1)).Set "y" (.Int 7)).Set "x" (.Int 2))
      ∧ ("y" ≠ "x"
        ∧ ((((NewEnvironment.Set "x" (.Int 1)).Set "y" (.Int 7)).Set "x" (.Int 2)).Get "y"
          = ((NewEnvironment.Set "x" (.Int 1)).Set "y" (.Int 7)).Get "y")) :=
  ⟨(let_binds_and_returns_let_term decls64 3 "x" (.Int 2) (.Var "x")
      ((NewEnvironment.Set "x" (.Int 1)).Set "y" (.Int 7))).1.trans rfl,
    by decide,
    (let_binds_and_returns_let_term decls64 3 "x" (.Int 2) (.Var "x")
      ((NewEnvironment.Set "x" (.Int 1)).Set "y" (.Int 7))).2.2.1 "y" (by decide)⟩

/-! ## C2: the factorial program -/

/-- C2, as stated, fails: with no amount of fuel does the factorial program
evaluate to `Int 120`, and neither does the call `fact(5)` inside it, evaluated
in the environment that the `Let` has set up. -/
theorem factorial_never_yields_120 :
    (¬ ∃ (D : Decls) (fuel : Nat) (env1 : Environment),
        evalNode D fuel (factProgram 5) NewEnvironment = some (.ok (.IntNode 120), env1))
      ∧ ¬ ∃ (D : Decls) (fuel : Nat) (env1 : Environment),
        evalNode D fuel (.Call (.Var "fact") [some (.Int 5)]) factEnv0
          = some (.ok (.IntNode 120), env1) := by
  constructor
  · rintro ⟨D, fuel, env1, h⟩
    rw [fact_program_diverges D fuel] at h
    cases h
  · rintro ⟨D, fuel, env1, h⟩
    rw [fact_call_diverges D fuel] at h
    cases h

/-- C2 (amended): the factorial program applied to `Int 5` does not evaluate to
`Int 120`; its evaluation never returns.  The recursive call binds `n` in the
fresh environment of the callee to the raw node `n - 1`, whose `n` is looked up
in that same environment, so `evalNode` and `EvalTree` run out of every fuel.
Only the base case is computed: the call on `Int 0` evaluates to `Int 1`, the
program `fact(0)` evaluates to its `Let` term and `EvalTree` succeeds on it. -/
theorem factorial_of_five_does_not_return (D : Decls) (fuel : Nat) :
    evalNode D fuel (factProgram 5) NewEnvironment = none
      ∧ evalNode D fuel (.Call (.Var "fact") [some (.Int 5)]) factEnv0 = none
      ∧ EvalTree D fuel (.expression (factProgram 5)) NewEnvironment = none
      ∧ evalNode D (fuel + 5) (.Call (.Var "fact") [some (.Int 0)]) factEnv0
        = some (.ok (.IntNode 1), factEnv0)
      ∧ evalNode D (fuel + 6) (factProgram 0) NewEnvironment
        = some (.ok (.LetNode "fact" factFunction (.Call (.Var "fact") [some (.Int 0)])),
            factEnv0)
      ∧ EvalTree D (fuel + 6) (.expression (factProgram 0)) NewEnvironment
        = some (.ok (), factEnv0) := by
  have h0 : evalNode D (fuel + 6) (factProgram 0) NewEnvironment
      = some (.ok (.LetNode "fact" factFunction (.Call (.Var "fact") [some (.Int 0)])),
          factEnv0) :=
    evalNode_fuel_le D (Nat.le_add_left 6 fuel) _ _ _ rfl
  refine ⟨fact_program_diverges D fuel, fact_call_diverges D fuel, ?_, ?_, h0, ?_⟩
  · simp only [EvalTree, fact_program_diverges D fuel]
  · exact evalNode_fuel_le D (Nat.le_add_left 5 fuel) _ _ _ rfl
  · simp only [EvalTree, h0]

/-! ## C3, C4, C5: arithmetic -/

theorem evalNode_Binary_literals (D : Decls) (fuel : Nat) (op : String) (lhs rhs : Node)
    (l r : Term) (env : Environment)
    (hl : ∀ k e, evalNode D (k + 1) lhs e = some (.ok l, e))
    (hr : ∀ k e, evalNode D (k + 1) rhs e = some (.ok r, e)) :
    evalNode D (fuel + 2) (.Binary op lhs rhs) env = some (BinaryNode.operate D op l r, env) :=
  evalNode_Binary_ok D (fuel + 1) op lhs rhs env env env l r (hl fuel env) (hr fuel env)

/-- C3: the code breaks the claim.  `Sub` of `Int a` and `Str s` returns no
type-mismatch error: the failed assertion leaves the zero value, and the
result is the Integer `a - 0` (wrapped to the width of the type); at 64 bits
`Sub` of `Int 5` and `Str "a"` is `Int 5`.  None of the four operators
answers an Integer with a String by an error. -/
theorem sub_of_int_and_str_is_computed (D : Decls) (fuel : Nat) (a : Int) (s : String)
    (env : Environment) :
    evalNode D (fuel + 2) (.Binary "Sub" (.Int a) (.Str s)) env
        = some (.ok (.IntNode (wrapInt D.intBits (a - 0))), env)
      ∧ evalNode decls64 (fuel + 2) (.Binary "Sub" (.Int 5) (.Str "a")) env
        = some (.ok (.IntNode 5), env)
      ∧ evalNode D (fuel + 2) (.Binary "Mul" (.Int a) (.Str s)) env
        = some (.ok (.IntNode (wrapInt D.intBits (a * 0))), env)
      ∧ evalNode D (fuel + 2) (.Binary "Div" (.Int a) (.Str s)) env
        = some (.panic .divideByZero, env)
      ∧ evalNode D (fuel + 2) (.Binary "Rem" (.Int a) (.Str s)) env
        = some (.panic .divideByZero, env) := by
  refine ⟨?_, ?_, ?_, ?_, ?_⟩
  · exact (evalNode_Binary_literals D fuel "Sub" (.Int a) (.Str s) (.IntNode a) (.StrNode s) env
      (fun _ _ => rfl) (fun _ _ => rfl)).trans rfl
  · exact (evalNode_Binary_literals decls64 fuel "Sub" (.Int 5) (.Str "a") (.IntNode 5)
      (.StrNode "a") env (fun _ _ => rfl) (fun _ _ => rfl)).trans rfl
  · exact (evalNode_Binary_literals D fuel "Mul" (.Int a) (.Str s) (.IntNode a) (.StrNode s) env
      (fun _ _ => rfl) (fun _ _ => rfl)).trans rfl
  · exact (evalNode_Binary_literals D fuel "Div" (.Int a) (.Str s) (.IntNode a) (.StrNode s) env
      (fun _ _ => rfl) (fun _ _ => rfl)).trans rfl
  · exact (evalNode_Binary_literals D fuel "Rem" (.Int a) (.Str s) (.IntNode a) (.StrNode s) env
      (fun _ _ => rfl) (fun _ _ => rfl)).trans rfl

/-- C4, as stated, fails: `Div` of `Int 1` and `Int 0` returns no error value,
whatever the fuel. -/
theorem div_by_zero_returns_no_error :
    ¬ ∃ (D : Decls) (fuel : Nat) (e : Error) (env1 : Environment),
      evalNode D fuel (.Binary "Div" (.Int 1) (.Int 0)) NewEnvironment
        = some (.err e, env1) := by
  rintro ⟨D, fuel, e, env1, h⟩
  match fuel with
  | 0 => cases h
  | 1 => cases h
  | k + 2 =>
    rw [evalNode_Binary_literals D k "Div" (.Int 1) (.Int 0) (.IntNode 1) (.IntNode 0)
      NewEnvironment (fun _ _ => rfl) (fun _ _ => rfl)] at h
    cases h

/-- C4 (amended): for every integer `a`, `Binary(Div, Int a, Int 0)` produces
no value, and no error value either: the Go division stops the evaluation with
the run-time panic for an integer division by zero (with less fuel than the
two nested calls need, nothing is returned at all). -/
theorem div_by_zero_panics (D : Decls) (fuel : Nat) (a : Int) (env : Environment) :
    evalNode D (fuel + 2) (.Binary "Div" (.Int a) (.Int 0)) env
        = some (.panic .divideByZero, env)
      ∧ evalNode D 1 (.Binary "Div" (.Int a) (.Int 0)) env = none
      ∧ evalNode D 0 (.Binary "Div" (.Int a) (.Int 0)) env = none :=
  ⟨(evalNode_Binary_literals D fuel "Div" (.Int a) (.Int 0) (.IntNode a) (.IntNode 0) env
    (fun _ _ => rfl) (fun _ _ => rfl)).trans rfl, rfl, rfl⟩

theorem wrapInt_of_inRange (bits : Nat) (x : Int) (hb : 0 < bits) (hx : inRange bits x) :
    wrapInt bits x = x := by
  obtain ⟨h1, h2⟩ := hx
  have hp : (2 : Int) ^ bits = 2 * 2 ^ (bits - 1) := by
    obtain ⟨m, rfl⟩ : ∃ m, bits = m + 1 := ⟨bits - 1, by omega⟩
    simp [pow_succ, mul_comm]
  unfold wrapInt
  rw [hp, Int.emod_eq_of_lt (by linarith) (by linarith)]
  ring

/-- C5, as stated, fails where the sum leaves the range of the Integer type:
at 64 bits the sum of `9223372036854775807` and `1`, and at 32 bits the sum of
`2147483647` and `1`, is the least value of the type. -/
theorem add_wraps_at_the_bound :
    evalNode decls64 2 (.Binary "Add" (.Int 9223372036854775807) (.Int 1)) NewEnvironment
        = some (.ok (.IntNode (-9223372036854775808)), NewEnvironment)
      ∧ evalNode decls32 2 (.Binary "Add" (.Int 2147483647) (.Int 1)) NewEnvironment
        = some (.ok (.IntNode (-2147483648)), NewEnvironment)
      ∧ ¬ ∀ (a b : Int), inRange 64 a → inRange 64 b →
          evalNode decls64 2 (.Binary "Add" (.Int a) (.Int b)) NewEnvironment
            = some (.ok (.IntNode (a + b)), NewEnvironment) := by
  refine ⟨rfl, rfl, ?_⟩
  intro h
  have h1 := h 9223372036854775807 1 (by unfold inRange; decide) (by unfold inRange; decide)
  have h2 : evalNode decls64 2 (.Binary "Add" (.Int 9223372036854775807) (.Int 1))
      NewEnvironment = some (.ok (.IntNode (-9223372036854775808)), NewEnvironment) := rfl
  rw [h2] at h1
  simp at h1

/-- C5 (amended): for all integers `a` and `b`, `Binary(Add, Int a, Int b)`
yields in every environment the Integer `a + b` reduced to the range of the
signed Integer type by two-complement wrap-around; this is `Int (a + b)`
whenever `a + b` lies in that range. -/
theorem add_of_ints_is_wrapped_sum (D : Decls) (fuel : Nat) (a b : Int) (env : Environment) :
    evalNode D (fuel + 2) (.Binary "Add" (.Int a) (.Int b)) env
        = some (.ok (.IntNode (wrapInt D.intBits (a + b))), env)
      ∧ (0 < D.intBits → inRange D.intBits (a + b) →
          evalNode D (fuel + 2) (.Binary "Add" (.Int a) (.Int b)) env
            = some (.ok (.IntNode (a + b)), env)) := by
  have h : evalNode D (fuel + 2) (.Binary "Add" (.Int a) (.Int b)) env
      = some (.ok (.IntNode (wrapInt D.intBits (a + b))), env) :=
    (evalNode_Binary_literals D fuel "Add" (.Int a) (.Int b) (.IntNode a) (.IntNode b) env
      (fun _ _ => rfl) (fun _ _ => rfl)).trans rfl
  refine ⟨h, fun hb hr => ?_⟩
  rw [h, wrapInt_of_inRange _ _ hb hr]

/-- C5, an instance: at 64 bits `2 + 3` is in range and the sum is `Int 5`. -/
theorem add_of_ints_is_wrapped_sum_witness :
    0 < decls64.intBits ∧ inRange decls64.intBits (2 + 3)
      ∧ evalNode decls64 2 (.Binary "Add" (.Int 2) (.Int 3)) NewEnvironment
        = some (.ok (.IntNode (2 + 3)), NewEnvironment) :=
  ⟨by decide, by unfold inRange; decide,
    (add_of_ints_is_wrapped_sum decls64 0 2 3 NewEnvironment).2 (by decide)
      (by unfold inRange; decide)⟩

/-! ## C6: Add with a String operand -/

theorem operate_Add_of_isStr (D : Decls) (l r : Term) (h : l.isStr = true ∨ r.isStr = true) :
    BinaryNode.operate D "Add" l r = .ok (.StrNode (D.format l ++ D.format r)) := by
  have h2 : (l.isStr || r.isStr) = true := by simpa using h
  simp [BinaryNode.operate, h2]

/-- C6: when the rendering of terms gives a String as its text and an Integer
in decimal, `Binary(Add, Str s, Int n)` yields the Str whose text is `s`
followed by the decimal form of `n`; and whenever one of the two operands of
`Add` evaluates to a Str, the result is the Str that concatenates the rendering
of the left operand and the rendering of the right operand, in this order. -/
theorem add_with_string_concatenates (D : Decls) (fuel : Nat) (s : String) (n : Int)
    (lhs rhs : Node) (env env1 env2 : Environment) (l r : Term)
    (hs : D.format (.StrNode s) = s) (hn : D.format (.IntNode n) = toString n)
    (hl : evalNode D fuel lhs env = some (.ok l, env1))
    (hr : evalNode D fuel rhs env1 = some (.ok r, env2))
    (hstr : l.isStr = true ∨ r.isStr = true) :
    evalNode D (fuel + 2) (.Binary "Add" (.Str s) (.Int n)) env
        = some (.ok (.StrNode (s ++ toString n)), env)
      ∧ evalNode D (fuel + 1) (.Binary "Add" lhs rhs) env
        = some (.ok (.StrNode (D.format l ++ D.format r)), env2) := by
  constructor
  · rw [evalNode_Binary_literals D fuel "Add" (.Str s) (.Int n) (.StrNode s) (.IntNode n) env
      (fun _ _ => rfl) (fun _ _ => rfl), operate_Add_of_isStr D (.StrNode s) (.IntNode n) (Or.inl rfl), hs, hn]
  · rw [evalNode_Binary_ok D fuel "Add" lhs rhs env env1 env2 l r hl hr,
      operate_Add_of_isStr D l r hstr]

/-- C6, an instance: `"a" + 5` is `"a"` followed by the decimal form of `5`,
and `1 + "b"` concatenates the renderings of `Int 1` and `Str "b"`. -/
theorem add_with_string_concatenates_witness :
    evalNode decls64 3 (.Binary "Add" (.Str "a") (.Int 5)) NewEnvironment
        = some (.ok (.StrNode ("a" ++ toString (5 : Int))), NewEnvironment)
      ∧ evalNode decls64 2 (.Binary "Add" (.Int 1) (.Str "b")) NewEnvironment
        = some (.ok (.StrNode (decls64.format (.IntNode 1) ++ decls64.format (.StrNode "b"))),
            NewEnvironment) :=
  add_with_string_concatenates decls64 1 "a" 5 (.Int 1) (.Str "b") NewEnvironment NewEnvironment
    NewEnvironment (.IntNode 1) (.StrNode "b") rfl rfl rfl rfl (Or.inr rfl)

/-! ## C7: Eq and Neq -/

theorem goEq_of_comparable_left (l : Term) :
    ∀ r : Term, l.comparable = true → ∃ b, goEq l r = some b ∧ (b = true ↔ l = r) := by
  induction l with
  | nil => intro r _; cases r <;> simp [goEq]
  | StrNode a => intro r _; cases r <;> simp [goEq]
  | IntNode a => intro r _; cases r <;> simp [goEq]
  | BoolNode a => intro r _; cases r <;> simp [goEq]
  | TupleNode a b iha ihb =>
    intro r h
    simp only [Term.comparable, Bool.and_eq_true] at h
    cases r with
    | TupleNode c d =>
      obtain ⟨x, hx, hxi⟩ := iha c h.1
      obtain ⟨y, hy, hyi⟩ := ihb d h.2
      cases x with
      | false =>
        refine ⟨false, by simp [goEq, hx], ?_⟩
        have hne : a ≠ c := fun e => by simpa using hxi.2 e
        simp [hne]
      | true =>
        refine ⟨y, by simp [goEq, hx, hy], ?_⟩
        have he : a = c := hxi.1 rfl
        simp [he, hyi]
    | _ => simp [goEq]
  | FunctionNode ps v e => intro r h; simp [Term.comparable] at h
  | LetNode i v n => intro r h; simp [Term.comparable] at h

theorem goEq_of_comparable_right (l : Term) :
    ∀ r : Term, r.comparable = true → ∃ b, goEq l r = some b ∧ (b = true ↔ l = r) := by
  induction l with
  | nil => intro r _; cases r <;> simp [goEq]
  | StrNode a => intro r _; cases r <;> simp [goEq]
  | IntNode a => intro r _; cases r <;> simp [goEq]
  | BoolNode a => intro r _; cases r <;> simp [goEq]
  | TupleNode a b iha ihb =>
    intro r h
    cases r with
    | TupleNode c d =>
      simp only [Term.comparable, Bool.and_eq_true] at h
      obtain ⟨x, hx, hxi⟩ := iha c h.1
      obtain ⟨y, hy, hyi⟩ := ihb d h.2
      cases x with
      | false =>
        refine ⟨false, by simp [goEq, hx], ?_⟩
        have hne : a ≠ c := fun e => by simpa using hxi.2 e
        simp [hne]
      | true =>
        refine ⟨y, by simp [goEq, hx, hy], ?_⟩
        have he : a = c := hxi.1 rfl
        simp [he, hyi]
    | _ => simp [goEq]
  | FunctionNode ps v e => intro r h; cases r <;> simp [goEq, Term.comparable] at h ⊢
  | LetNode i v n => intro r h; cases r <;> simp [goEq, Term.comparable] at h ⊢

theorem sameType_self (l : Term) : sameType l l = true := by
  cases l <;> rfl

theorem goEq_of_not_sameType (l r : Term) (h : sameType l r = false) :
    goEq l r = some false := by
  cases l <;> cases r <;> first | rfl | simp [sameType] at h

theorem operate_Eq_of_goEq (D : Decls) (l r : Term) (b : Bool) (h : goEq l r = some b)
    (hb : b = true ↔ l = r) :
    BinaryNode.operate D "Eq" l r = .ok (.BoolNode b)
      ∧ BinaryNode.operate D "Neq" l r = .ok (.BoolNode (!b)) := by
  have hst : b = true → sameType l r = true := fun e => by
    rw [hb.1 e]; exact sameType_self r
  have e1 : BinaryNode.operate D "Eq" l r = .ok (.BoolNode (b && sameType l r)) := by
    simp [BinaryNode.operate, h]
  have e2 : BinaryNode.operate D "Neq" l r = .ok (.BoolNode (!b || !sameType l r)) := by
    simp [BinaryNode.operate, h]
  rw [e1, e2]
  cases b with
  | false => simp
  | true => simp [hst rfl]

/-- C7, as stated, fails: `Eq` on two structurally identical Function values
yields no Bool, the comparison panics; so does `Eq` on two identical Tuples
that hold such a Function. -/
theorem eq_of_two_functions_panics :
    evalNode decls64 2 (.Binary "Eq" (.Function [some "n"] (.Var "n"))
        (.Function [some "n"] (.Var "n"))) NewEnvironment
        = some (.panic .uncomparable, NewEnvironment)
      ∧ evalNode decls64 3 (.Binary "Eq" (.Tuple (.Int 1) (.Function [] (.Int 1)))
          (.Tuple (.Int 1) (.Function [] (.Int 1)))) NewEnvironment
        = some (.panic .uncomparable, NewEnvironment)
      ∧ ¬ ∃ (D : Decls) (fuel : Nat) (b : Bool) (env1 : Environment),
          evalNode D fuel (.Binary "Eq" (.Function [some "n"] (.Var "n"))
            (.Function [some "n"] (.Var "n"))) NewEnvironment
            = some (.ok (.BoolNode b), env1) := by
  refine ⟨rfl, rfl, ?_⟩
  rintro ⟨D, fuel, b, env1, h⟩
  match fuel with
  | 0 => cases h
  | 1 => cases h
  | k + 2 =>
    rw [evalNode_Binary_literals D k "Eq" (.Function [some "n"] (.Var "n"))
      (.Function [some "n"] (.Var "n")) (.FunctionNode [some "n"] (.Var "n") NewEnvironment)
      (.FunctionNode [some "n"] (.Var "n") NewEnvironment) NewEnvironment
      (fun _ _ => rfl) (fun _ _ => rfl)] at h
    cases h

/-- C7 (amended): for operands that evaluate to terms `l` and `r` of which at
least one holds no Function and no Let term (a Str, Int, Bool, nil, or a Tuple
built from these), `Eq` yields a Bool that is true iff `l` and `r` are the
same term (same variant, same payload), and `Neq` yields its negation; and for
`l` and `r` of different variants, whatever they are, `Eq` yields Bool false
and `Neq` Bool true. -/
theorem eq_on_comparable_terms (D : Decls) (fuel : Nat) (lhs rhs : Node)
    (env env1 env2 : Environment) (l r : Term)
    (hl : evalNode D fuel lhs env = some (.ok l, env1))
    (hr : evalNode D fuel rhs env1 = some (.ok r, env2)) :
    (l.comparable = true ∨ r.comparable = true →
        ∃ b : Bool,
          evalNode D (fuel + 1) (.Binary "Eq" lhs rhs) env = some (.ok (.BoolNode b), env2)
            ∧ (b = true ↔ l = r)
            ∧ evalNode D (fuel + 1) (.Binary "Neq" lhs rhs) env
              = some (.ok (.BoolNode (!b)), env2))
      ∧ (sameType l r = false →
          evalNode D (fuel + 1) (.Binary "Eq" lhs rhs) env = some (.ok (.BoolNode false), env2)
            ∧ evalNode D (fuel + 1) (.Binary "Neq" lhs rhs) env
              = some (.ok (.BoolNode true), env2)) := by
  have hEq := evalNode_Binary_ok D fuel "Eq" lhs rhs env env1 env2 l r hl hr
  have hNeq := evalNode_Binary_ok D fuel "Neq" lhs rhs env env1 env2 l r hl hr
  constructor
  · intro hc
    obtain ⟨b, hb, hbi⟩ : ∃ b, goEq l r = some b ∧ (b = true ↔ l = r) := by
      rcases hc with hc | hc
      · exact goEq_of_comparable_left l r hc
      · exact goEq_of_comparable_right l r hc
    have hop := operate_Eq_of_goEq D l r b hb hbi
    exact ⟨b, by rw [hEq, hop.1], hbi, by rw [hNeq, hop.2]⟩
  · intro hst
    have hne : ¬ l = r := fun e => by
      rw [e, sameType_self] at hst; cases hst
    have hop := operate_Eq_of_goEq D l r false (goEq_of_not_sameType l r hst) (by simp [hne])
    exact ⟨by rw [hEq, hop.1], by rw [hNeq, hop.2]; rfl⟩

/-- C7, an instance: two identical Tuples of an Int and a Str are equal, and
an Int and a Str are of different variants. -/
theorem eq_on_comparable_terms_witness :
    (∃ b : Bool,
        evalNode decls64 3 (.Binary "Eq" (.Tuple (.Int 1) (.Str "a")) (.Tuple (.Int 1) (.Str "a")))
            NewEnvironment = some (.ok (.BoolNode b), NewEnvironment)
          ∧ (b = true ↔ Term.TupleNode (.IntNode 1) (.StrNode "a")
              = Term.TupleNode (.IntNode 1) (.StrNode "a"))
          ∧ evalNode decls64 3 (.Binary "Neq" (.Tuple (.Int 1) (.Str "a"))
              (.Tuple (.Int 1) (.Str "a"))) NewEnvironment
            = some (.ok (.BoolNode (!b)), NewEnvironment))
      ∧ evalNode decls64 2 (.Binary "Eq" (.Int 1) (.Str "1")) NewEnvironment
        = some (.ok (.BoolNode false), NewEnvironment) :=
  ⟨(eq_on_comparable_terms decls64 2 (.Tuple (.Int 1) (.Str "a")) (.Tuple (.Int 1) (.Str "a"))
      NewEnvironment NewEnvironment NewEnvironment _ _ rfl rfl).1 (Or.inl rfl),
    ((eq_on_comparable_terms decls64 1 (.Int 1) (.Str "1") NewEnvironment NewEnvironment
      NewEnvironment (.IntNode 1) (.StrNode "1") rfl rfl).2 rfl).1⟩

/-! ## C8, C9: comparisons and logic -/

/-- C8: the code breaks the claim.  On two Integers the four comparisons yield
the Bool of the integer comparison, but a comparison of `Int a` with `Str s`
returns no type-mismatch error: the failed assertion leaves the zero value and
the result is the Bool of comparing `a` with `0`; so `Lt` of `Int 1` and
`Str "a"` is Bool false, and `Lt` of `Int (-1)` and `Str "a"` is Bool true. -/
theorem comparison_of_int_and_str_is_computed (D : Decls) (fuel : Nat) (a b : Int)
    (s : String) (env : Environment) :
    (evalNode D (fuel + 2) (.Binary "Lt" (.Int a) (.Int b)) env
          = some (.ok (.BoolNode (decide (a < b))), env)
        ∧ evalNode D (fuel + 2) (.Binary "Gt" (.Int a) (.Int b)) env
          = some (.ok (.BoolNode (decide (a > b))), env)
        ∧ evalNode D (fuel + 2) (.Binary "Lte" (.Int a) (.Int b)) env
          = some (.ok (.BoolNode (decide (a ≤ b))), env)
        ∧ evalNode D (fuel + 2) (.Binary "Gte" (.Int a) (.Int b)) env
          = some (.ok (.BoolNode (decide (a ≥ b))), env))
      ∧ (evalNode D (fuel + 2) (.Binary "Lt" (.Int a) (.Str s)) env
          = some (.ok (.BoolNode (decide (a < 0))), env)
        ∧ evalNode D (fuel + 2) (.Binary "Gt" (.Int a) (.Str s)) env
          = some (.ok (.BoolNode (decide (a > 0))), env)
        ∧ evalNode D (fuel + 2) (.Binary "Lte" (.Str s) (.Int b)) env
          = some (.ok (.BoolNode (decide (0 ≤ b))), env)
        ∧ evalNode D (fuel + 2) (.Binary "Gte" (.Str s) (.Int b)) env
          = some (.ok (.BoolNode (decide (0 ≥ b))), env))
      ∧ evalNode D (fuel + 2) (.Binary "Lt" (.Int 1) (.Str "a")) env
        = some (.ok (.BoolNode false), env)
      ∧ evalNode D (fuel + 2) (.Binary "Lt" (.Int (-1)) (.Str "a")) env
        = some (.ok (.BoolNode true), env) := by
  refine ⟨⟨?_, ?_, ?_, ?_⟩, ⟨?_, ?_, ?_, ?_⟩, ?_, ?_⟩
  · exact (evalNode_Binary_literals D fuel "Lt" (.Int a) (.Int b) (.IntNode a) (.IntNode b) env
      (fun _ _ => rfl) (fun _ _ => rfl)).trans rfl
  · exact (evalNode_Binary_literals D fuel "Gt" (.Int a) (.Int b) (.IntNode a) (.IntNode b) env
      (fun _ _ => rfl) (fun _ _ => rfl)).trans rfl
  · exact (evalNode_Binary_literals D fuel "Lte" (.Int a) (.Int b) (.IntNode a) (.IntNode b) env
      (fun _ _ => rfl) (fun _ _ => rfl)).trans rfl
  · exact (evalNode_Binary_literals D fuel "Gte" (.Int a) (.Int b) (.IntNode a) (.IntNode b) env
      (fun _ _ => rfl) (fun _ _ => rfl)).trans rfl
  · exact (evalNode_Binary_literals D fuel "Lt" (.Int a) (.Str s) (.IntNode a) (.StrNode s) env
      (fun _ _ => rfl) (fun _ _ => rfl)).trans rfl
  · exact (evalNode_Binary_literals D fuel "Gt" (.Int a) (.Str s) (.IntNode a) (.StrNode s) env
      (fun _ _ => rfl) (fun _ _ => rfl)).trans rfl
  · exact (evalNode_Binary_literals D fuel "Lte" (.Str s) (.Int b) (.StrNode s) (.IntNode b) env
      (fun _ _ => rfl) (fun _ _ => rfl)).trans rfl
  · exact (evalNode_Binary_literals D fuel "Gte" (.Str s) (.Int b) (.StrNode s) (.IntNode b) env
      (fun _ _ => rfl) (fun _ _ => rfl)).trans rfl
  · exact (evalNode_Binary_literals D fuel "Lt" (.Int 1) (.Str "a") (.IntNode 1) (.StrNode "a")
      env (fun _ _ => rfl) (fun _ _ => rfl)).trans rfl
  · exact (evalNode_Binary_literals D fuel "Lt" (.Int (-1)) (.Str "a") (.IntNode (-1))
      (.StrNode "a") env (fun _ _ => rfl) (fun _ _ => rfl)).trans rfl

/-- C9: the code breaks the claim.  On two Booleans `And` and `Or` yield the
conjunction and the disjunction, but with one Boolean operand and one operand
of another kind no type-mismatch error is returned: the failed assertion
leaves the zero value `false`; so `And` of `Bool true` and `Int 1` is Bool
false and `Or` of `Bool true` and `Int 1` is Bool true. -/
theorem logic_of_bool_and_int_is_computed (D : Decls) (fuel : Nat) (p q : Bool) (n : Int)
    (env : Environment) :
    (evalNode D (fuel + 2) (.Binary "And" (.Bool p) (.Bool q)) env
          = some (.ok (.BoolNode (p && q)), env)
        ∧ evalNode D (fuel + 2) (.Binary "Or" (.Bool p) (.Bool q)) env
          = some (.ok (.BoolNode (p || q)), env))
      ∧ (evalNode D (fuel + 2) (.Binary "And" (.Bool p) (.Int n)) env
          = some (.ok (.BoolNode (p && false)), env)
        ∧ evalNode D (fuel + 2) (.Binary "Or" (.Int n) (.Bool q)) env
          = some (.ok (.BoolNode (false || q)), env))
      ∧ evalNode D (fuel + 2) (.Binary "And" (.Bool true) (.Int 1)) env
        = some (.ok (.BoolNode false), env)
      ∧ evalNode D (fuel + 2) (.Binary "Or" (.Bool true) (.Int 1)) env
        = some (.ok (.BoolNode true), env) := by
  refine ⟨⟨?_, ?_⟩, ⟨?_, ?_⟩, ?_, ?_⟩
  · exact (evalNode_Binary_literals D fuel "And" (.Bool p) (.Bool q) (.BoolNode p) (.BoolNode q)
      env (fun _ _ => rfl) (fun _ _ => rfl)).trans rfl
  · exact (evalNode_Binary_literals D fuel "Or" (.Bool p) (.Bool q) (.BoolNode p) (.BoolNode q)
      env (fun _ _ => rfl) (fun _ _ => rfl)).trans rfl
  · exact (evalNode_Binary_literals D fuel "And" (.Bool p) (.Int n) (.BoolNode p) (.IntNode n)
      env (fun _ _ => rfl) (fun _ _ => rfl)).trans rfl
  · exact (evalNode_Binary_literals D fuel "Or" (.Int n) (.Bool q) (.IntNode n) (.BoolNode q)
      env (fun _ _ => rfl) (fun _ _ => rfl)).trans rfl
  · exact (evalNode_Binary_literals D fuel "And" (.Bool true) (.Int 1) (.BoolNode true)
      (.IntNode 1) env (fun _ _ => rfl) (fun _ _ => rfl)).trans rfl
  · exact (evalNode_Binary_literals D fuel "Or" (.Bool true) (.Int 1) (.BoolNode true)
      (.IntNode 1) env (fun _ _ => rfl) (fun _ _ => rfl)).trans rfl

/-! ## C10: If -/

/-- C10: when the condition of `If(c, t, e)` evaluates to Bool true the result
is exactly the result of evaluating `t` (in the environment that the condition
left), when it evaluates to Bool false exactly the result of evaluating `e`,
and when it evaluates to a value that is no Bool the evaluation fails with the
error for a condition that is not a Bool.  The other branch is not evaluated:
replacing it by any node at all, `other`, leaves the result as it is. -/
theorem if_evaluates_selected_branch_only (D : Decls) (fuel : Nat)
    (condition thenBranch elseBranch other : Node) (env env1 : Environment) (v : Term) :
    (evalNode D fuel condition env = some (.ok (.BoolNode true), env1) →
        evalNode D (fuel + 1) (.If condition thenBranch elseBranch) env
            = evalNode D fuel thenBranch env1
          ∧ evalNode D (fuel + 1) (.If condition thenBranch other) env
            = evalNode D (fuel + 1) (.If condition thenBranch elseBranch) env)
      ∧ (evalNode D fuel condition env = some (.ok (.BoolNode false), env1) →
        evalNode D (fuel + 1) (.If condition thenBranch elseBranch) env
            = evalNode D fuel elseBranch env1
          ∧ evalNode D (fuel + 1) (.If condition other elseBranch) env
            = evalNode D (fuel + 1) (.If condition thenBranch elseBranch) env)
      ∧ (evalNode D fuel condition env = some (.ok v, env1) → (∀ b, v ≠ .BoolNode b) →
        evalNode D (fuel + 1) (.If condition thenBranch elseBranch) env
          = some (.err .ifCondition, env1)) := by
  refine ⟨fun h => ?_, fun h => ?_, fun h hv => ?_⟩
  · rw [evalNode_If_bool D fuel condition thenBranch elseBranch env env1 true h,
      evalNode_If_bool D fuel condition thenBranch other env env1 true h]
    exact ⟨rfl, rfl⟩
  · rw [evalNode_If_bool D fuel condition thenBranch elseBranch env env1 false h,
      evalNode_If_bool D fuel condition other elseBranch env env1 false h]
    exact ⟨rfl, rfl⟩
  · rw [evalNode_If, IfNode.Eval, h]
    cases v with
    | BoolNode b => exact absurd rfl (hv b)
    | _ => rfl

/-- C10, an instance: `If(true, 1, _)` is `Int 1` although the else branch is a
node of unknown kind, `If(false, _, 2)` is `Int 2` although the then branch
reads an undeclared variable, and `If(1, 1, 2)` fails. -/
theorem if_evaluates_selected_branch_only_witness :
    evalNode decls64 2 (.If (.Bool true) (.Int 1) (.Other "Nonsense")) NewEnvironment
        = some (.ok (.IntNode 1), NewEnvironment)
      ∧ evalNode decls64 2 (.If (.Bool false) (.Var "missing") (.Int 2)) NewEnvironment
        = some (.ok (.IntNode 2), NewEnvironment)
      ∧ evalNode decls64 2 (.If (.Int 1) (.Int 1) (.Int 2)) NewEnvironment
        = some (.err .ifCondition, NewEnvironment) :=
  ⟨((if_evaluates_selected_branch_only decls64 1 (.Bool true) (.Int 1) (.Other "Nonsense")
      (.Int 0) NewEnvironment NewEnvironment .nil).1 rfl).1.trans rfl,
    ((if_evaluates_selected_branch_only decls64 1 (.Bool false) (.Var "missing") (.Int 2)
      (.Int 0) NewEnvironment NewEnvironment .nil).2.1 rfl).1.trans rfl,
    (if_evaluates_selected_branch_only decls64 1 (.Int 1) (.Int 1) (.Int 2) (.Int 0)
      NewEnvironment NewEnvironment (.IntNode 1)).2.2 rfl (fun b h => by cases h)⟩

theorem operate_err (D : Decls) (op : String) (l r : Term) (e : Error)
    (h : BinaryNode.operate D op l r = .err e) :
    (op = "Add" ∧ e = .addOperands)
      ∨ ((op = "Sub" ∨ op = "Mul" ∨ op = "Div" ∨ op = "Rem") ∧ e = .intOperator op)
      ∨ ((op = "Lt" ∨ op = "Gt" ∨ op = "Lte" ∨ op = "Gte") ∧ e = .intComparison op)
      ∨ ((op = "And" ∨ op = "Or") ∧ e = .boolOperator op)
      ∨ (op ∉ knownOperators ∧ e = .unknownOperator op) := by
  unfold BinaryNode.operate at h
  split_ifs at h with h1 h2 h3 h4 h5 h6 h7 h8 h9 h10 h11 h12 h13 h14 h15 h16 h17 h18 h19
  all_goals first
    | (cases h; done)
    | (cases h; simp_all [knownOperators])
    | (split at h <;> cases h)

/-! ## Copy-merge -/

theorem foldl_copyEntry_get (table : List (String × Node)) :
    ∀ (env : Environment) (key : String),
      (∀ v, env.Get key = some v → (table.foldl copyEntry env).Get key = some v)
        ∧ (env.Get key = none → (table.foldl copyEntry env).Get key = lookupEntry table key) := by
  induction table with
  | nil => intro env key; exact ⟨fun v h => h, fun h => h⟩
  | cons entry rest ih =>
    intro env key
    obtain ⟨k, w⟩ := entry
    simp only [List.foldl_cons]
    cases hk : env.Get k with
    | some u =>
      have he : copyEntry env (k, w) = env := by simp [copyEntry, hk]
      rw [he]
      refine ⟨(ih env key).1, fun h => ?_⟩
      have hne : k ≠ key := fun e => by rw [e, h] at hk; cases hk
      rw [(ih env key).2 h]
      simp [lookupEntry, hne]
    | none =>
      have he : copyEntry env (k, w) = env.Set k w := by simp [copyEntry, hk]
      rw [he]
      by_cases hkey : key = k
      · subst hkey
        have hs := (ih (env.Set key w) key).1 w (Environment.Get_Set_same env key w)
        refine ⟨fun v h => ?_, fun _ => ?_⟩
        · rw [hk] at h; cases h
        · rw [hs]; simp [lookupEntry]
      · have ho := Environment.Get_Set_other env k key w hkey
        refine ⟨fun v h => (ih (env.Set k w) key).1 v (ho.trans h), fun h => ?_⟩
        rw [(ih (env.Set k w) key).2 (ho.trans h)]
        simp [lookupEntry, Ne.symm hkey]

theorem captureEnv_get_bound (fenv env : Environment) (key : String) (v : Node)
    (h : fenv.Get key = some v) : (FunctionNode.captureEnv fenv env).Get key = some v :=
  (foldl_copyEntry_get env.SymbolTable fenv key).1 v h

theorem captureEnv_get_free (fenv env : Environment) (key : String)
    (h : fenv.Get key = none) : (FunctionNode.captureEnv fenv env).Get key = env.Get key :=
  (foldl_copyEntry_get env.SymbolTable fenv key).2 h

/-! ## Keys persist -/

theorem keysWithin_refl (env : Environment) : env.keysWithin env := fun _ h => h

theorem keysWithin_trans {env env1 env2 : Environment} (h1 : env.keysWithin env1)
    (h2 : env1.keysWithin env2) : env.keysWithin env2 := fun key h => h2 key (h1 key h)

theorem keysWithin_Set (env : Environment) (identifier : String) (value : Node) :
    env.keysWithin (env.Set identifier value) := by
  intro key h
  by_cases e : key = identifier
  · subst e; rw [Environment.Get_Set_same]; simp
  · rw [Environment.Get_Set_other env identifier key value e]; exact h

theorem keysWithin_captureEnv (fenv env : Environment) :
    env.keysWithin (FunctionNode.captureEnv fenv env) := by
  intro key h
  cases hf : fenv.Get key with
  | some v => rw [captureEnv_get_bound fenv env key v hf]; simp
  | none => rw [captureEnv_get_free fenv env key hf]; exact h

theorem excludedIn_mono {env env1 : Environment} (h : env.keysWithin env1) (e : Error)
    (he : e.excludedIn env) : e.excludedIn env1 := by
  cases e <;> first | exact he | exact h _ he

theorem setParametersFrom_err (env : Environment) (parameters : List (Option String)) :
    ∀ (argIndex : Nat) (arguments : List (Option Node)) (fenv fenv1 : Environment) (e : Error),
      setParametersFrom argIndex parameters arguments fenv = (some e, fenv1) →
        ¬ e.excludedIn env := by
  induction parameters with
  | nil => intro i args fenv fenv1 e h; simp [setParametersFrom] at h
  | cons p ps ih =>
    intro i args fenv fenv1 e h
    cases args with
    | nil => simp [setParametersFrom] at h
    | cons a as =>
      cases p with
      | none =>
        simp only [setParametersFrom, Prod.mk.injEq, Option.some.injEq] at h
        rw [← h.1]; exact fun x => x
      | some name =>
        cases a with
        | none =>
          simp only [setParametersFrom, Prod.mk.injEq, Option.some.injEq] at h
          rw [← h.1]; exact fun x => x
        | some arg =>
          simp only [setParametersFrom] at h
          cases hg : fenv.Get name with
          | some _ =>
            simp only [hg, Prod.mk.injEq, Option.some.injEq] at h
            rw [← h.1]; exact fun x => x
          | none =>
            simp only [hg] at h
            exact ih _ _ _ _ _ h

theorem setParameters_err (env : Environment) (parameters : List (Option String))
    (arguments : List (Option Node)) (fenv fenv1 : Environment) (e : Error)
    (h : FunctionNode.setParameters parameters fenv arguments = (some e, fenv1)) :
    ¬ e.excludedIn env := by
  unfold FunctionNode.setParameters at h
  split_ifs at h
  · simp only [Prod.mk.injEq, Option.some.injEq] at h
    rw [← h.1]; exact fun x => x
  · exact setParametersFrom_err env _ _ _ _ _ _ h

theorem operate_err_not_excluded (D : Decls) (op : String) (l r : Term) (e : Error)
    (env : Environment) (h : BinaryNode.operate D op l r = .err e) : ¬ e.excludedIn env := by
  rcases operate_err D op l r e h with h | h | h | h | h <;> rw [h.2] <;> exact fun x => x

/-! ## What `evalNode` cannot return -/

theorem regular_of_step {ev : Evaluator} (h : ev.regular) {node : Node}
    {env env0 env1 : Environment} {r : Outcome Term} (h0 : env0.keysWithin env)
    (hr : ev node env = some (r, env1)) :
    env0.keysWithin env1 ∧ ∀ e, r = .err e → ¬ e.excludedIn env0 :=
  ⟨keysWithin_trans h0 (h _ _ _ _ hr).1,
    fun e he hx => (h _ _ _ _ hr).2 e he (excludedIn_mono h0 e hx)⟩

theorem BinaryNode_Eval_regular (D : Decls) {ev : Evaluator} (h : ev.regular) (op : String)
    (lhs rhs : Node) (env env2 : Environment) (r : Outcome Term)
    (hr : BinaryNode.Eval D ev op lhs rhs env = some (r, env2)) :
    env.keysWithin env2 ∧ ∀ e, r = .err e → ¬ e.excludedIn env := by
  unfold BinaryNode.Eval at hr
  cases h1 : ev lhs env with
  | none => simp [h1] at hr
  | some p =>
    obtain ⟨o, env1⟩ := p
    have s1 := regular_of_step h (keysWithin_refl env) h1
    rw [h1] at hr
    cases o with
    | err e => cases hr; exact s1
    | panic q => cases hr; exact ⟨s1.1, fun e he => by cases he⟩
    | ok l =>
      simp only at hr
      cases h2 : ev rhs env1 with
      | none => simp [h2] at hr
      | some p2 =>
        obtain ⟨o2, env3⟩ := p2
        have s2 := regular_of_step h s1.1 h2
        rw [h2] at hr
        cases o2 with
        | err e => cases hr; exact s2
        | panic q => cases hr; exact ⟨s2.1, fun e he => by cases he⟩
        | ok r2 =>
          cases hr
          exact ⟨s2.1, fun e he => operate_err_not_excluded D op l r2 e env he⟩

theorem LetNode_Eval_regular {ev : Evaluator} (h : ev.regular) (identifier : String)
    (value next : Node) (env env2 : Environment) (r : Outcome Unit)
    (hr : LetNode.Eval ev identifier value next env = some (r, env2)) :
    env.keysWithin env2 ∧ ∀ e, r = .err e → ¬ e.excludedIn env := by
  unfold LetNode.Eval at hr
  cases h1 : ev next (env.Set identifier value) with
  | none => simp [h1] at hr
  | some p =>
    obtain ⟨o, env1⟩ := p
    have s1 := regular_of_step h (keysWithin_Set env identifier value) h1
    rw [h1] at hr
    cases o with
    | err e =>
      cases hr
      exact ⟨s1.1, fun e he => by cases he; exact s1.2 _ rfl⟩
    | panic q => cases hr; exact ⟨s1.1, fun e he => by cases he⟩
    | ok l => cases hr; exact ⟨s1.1, fun e he => by cases he⟩

theorem VarNode_Eval_regular {ev : Evaluator} (h : ev.regular) (text : String)
    (env env2 : Environment) (r : Outcome Term)
    (hr : VarNode.Eval ev text env = some (r, env2)) :
    env.keysWithin env2 ∧ ∀ e, r = .err e → ¬ e.excludedIn env := by
  unfold VarNode.Eval at hr
  cases h1 : env.Get text with
  | none =>
    simp only [h1, Option.some.injEq, Prod.mk.injEq] at hr
    rw [← hr.1, ← hr.2]
    refine ⟨keysWithin_refl env, fun e he hx => ?_⟩
    cases he
    exact hx h1
  | some bound =>
    simp only [h1] at hr
    exact h _ _ _ _ hr

theorem TupleNode_Eval_regular {ev : Evaluator} (h : ev.regular) (first second : Node)
    (env env2 : Environment) (r : Outcome Term)
    (hr : TupleNode.Eval ev first second env = some (r, env2)) :
    env.keysWithin env2 ∧ ∀ e, r = .err e → ¬ e.excludedIn env := by
  unfold TupleNode.Eval at hr
  cases h1 : ev first env with
  | none => simp [h1] at hr
  | some p =>
    obtain ⟨o, env1⟩ := p
    have s1 := regular_of_step h (keysWithin_refl env) h1
    rw [h1] at hr
    cases o with
    | err e => cases hr; exact ⟨s1.1, fun e he => by cases he⟩
    | panic q => cases hr; exact ⟨s1.1, fun e he => by cases he⟩
    | ok l =>
      simp only at hr
      cases h2 : ev second env1 with
      | none => simp [h2] at hr
      | some p2 =>
        obtain ⟨o2, env3⟩ := p2
        have s2 := regular_of_step h s1.1 h2
        rw [h2] at hr
        cases o2 with
        | err e => cases hr; exact ⟨s2.1, fun e he => by cases he⟩
        | panic q => cases hr; exact ⟨s2.1, fun e he => by cases he⟩
        | ok r2 => cases hr; exact ⟨s2.1, fun e he => by cases he⟩

theorem TupleFunction_Eval_regular {ev : Evaluator} (h : ev.regular) (kind : String)
    (value : Node) (env env2 : Environment) (r : Outcome Term)
    (hr : TupleFunction.Eval ev kind value env = some (r, env2)) :
    env.keysWithin env2 ∧ ∀ e, r = .err e → ¬ e.excludedIn env := by
  unfold TupleFunction.Eval at hr
  cases h1 : ev value env with
  | none => simp [h1] at hr
  | some p =>
    obtain ⟨o, env1⟩ := p
    have s1 := regular_of_step h (keysWithin_refl env) h1
    rw [h1] at hr
    cases o with
    | err e => cases hr; exact s1
    | panic q => cases hr; exact ⟨s1.1, fun e he => by cases he⟩
    | ok t =>
      cases t with
      | TupleNode a b =>
        simp only at hr
        split_ifs at hr <;> cases hr <;> exact ⟨s1.1, fun e he => by cases he⟩
      | _ => cases hr; exact ⟨s1.1, fun e he => by cases he; exact fun x => x⟩

theorem IfNode_Eval_regular {ev : Evaluator} (h : ev.regular)
    (condition thenBranch elseBranch : Node) (env env2 : Environment) (r : Outcome Term)
    (hr : IfNode.Eval ev condition thenBranch elseBranch env = some (r, env2)) :
    env.keysWithin env2 ∧ ∀ e, r = .err e → ¬ e.excludedIn env := by
  unfold IfNode.Eval at hr
  cases h1 : ev condition env with
  | none => simp [h1] at hr
  | some p =>
    obtain ⟨o, env1⟩ := p
    have s1 := regular_of_step h (keysWithin_refl env) h1
    rw [h1] at hr
    cases o with
    | err e => cases hr; exact s1
    | panic q => cases hr; exact ⟨s1.1, fun e he => by cases he⟩
    | ok t =>
      cases t with
      | BoolNode b => exact regular_of_step h s1.1 hr
      | _ => cases hr; exact ⟨s1.1, fun e he => by cases he; exact fun x => x⟩

theorem CallNode_Eval_regular {ev : Evaluator} (h : ev.regular) (callee : Node)
    (arguments : List (Option Node)) (env env2 : Environment) (r : Outcome Term)
    (hr : CallNode.Eval ev callee arguments env = some (r, env2)) :
    env.keysWithin env2 ∧ ∀ e, r = .err e → ¬ e.excludedIn env := by
  unfold CallNode.Eval at hr
  cases h1 : ev callee env with
  | none => simp [h1] at hr
  | some p =>
    obtain ⟨o, env1⟩ := p
    have s1 := regular_of_step h (keysWithin_refl env) h1
    rw [h1] at hr
    cases o with
    | err e => cases hr; exact s1
    | panic q => cases hr; exact ⟨s1.1, fun e he => by cases he⟩
    | ok t =>
      cases t with
      | FunctionNode parameters value fenv =>
        simp only at hr
        cases h2 : FunctionNode.setParameters parameters fenv arguments with
        | mk oe fenv1 =>
          rw [h2] at hr
          cases oe with
          | some e =>
            cases hr
            exact ⟨s1.1, fun e2 he => by cases he; exact setParameters_err env _ _ _ _ _ h2⟩
          | none =>
            simp only at hr
            cases h3 : ev value (FunctionNode.captureEnv fenv1 env1) with
            | none => simp [h3] at hr
            | some p3 =>
              obtain ⟨o3, env3⟩ := p3
              rw [h3] at hr
              have s3 := regular_of_step h
                (keysWithin_trans s1.1 (keysWithin_captureEnv fenv1 env1)) h3
              cases hr
              exact ⟨s1.1, s3.2⟩
      | _ => cases hr; exact ⟨s1.1, fun e he => by cases he; exact fun x => x⟩

/-- Whatever the fuel, `evalNode` keeps every key of its environment, never
returns the error of `EvalTree`, and never returns the undeclared-variable
error for an identifier that is bound. -/
theorem evalNode_regular (D : Decls) (fuel : Nat) : Evaluator.regular (evalNode D fuel) := by
  induction fuel with
  | zero => intro node env r env2 hr; simp [evalNode_zero] at hr
  | succ n ih =>
    intro node env r env2 hr
    cases node with
    | Str v => rw [evalNode_Str] at hr; cases hr; exact ⟨keysWithin_refl env, fun e he => by cases he⟩
    | Int v => rw [evalNode_Int] at hr; cases hr; exact ⟨keysWithin_refl env, fun e he => by cases he⟩
    | Bool v =>
      rw [evalNode_Bool] at hr; cases hr; exact ⟨keysWithin_refl env, fun e he => by cases he⟩
    | Print v => rw [evalNode_Print, PrintNode.Eval] at hr; exact ih _ _ _ _ hr
    | Binary op l r2 =>
      rw [evalNode_Binary] at hr
      exact BinaryNode_Eval_regular D ih _ _ _ _ _ _ hr
    | Let i v nx =>
      rw [evalNode_Let] at hr
      cases h1 : LetNode.Eval (evalNode D n) i v nx env with
      | none => simp [h1] at hr
      | some p =>
        obtain ⟨o, env1⟩ := p
        have s1 := LetNode_Eval_regular ih _ _ _ _ _ _ h1
        rw [h1] at hr
        cases o with
        | err e => cases hr; exact ⟨s1.1, fun e he => by cases he; exact s1.2 _ rfl⟩
        | panic q => cases hr; exact ⟨s1.1, fun e he => by cases he⟩
        | ok u => cases hr; exact ⟨s1.1, fun e he => by cases he⟩
    | Var t => rw [evalNode_Var] at hr; exact VarNode_Eval_regular ih _ _ _ _ hr
    | Tuple a b => rw [evalNode_Tuple] at hr; exact TupleNode_Eval_regular ih _ _ _ _ _ hr
    | First v => rw [evalNode_First] at hr; exact TupleFunction_Eval_regular ih _ _ _ _ _ hr
    | Second v => rw [evalNode_Second] at hr; exact TupleFunction_Eval_regular ih _ _ _ _ _ hr
    | If c t e => rw [evalNode_If] at hr; exact IfNode_Eval_regular ih _ _ _ _ _ _ hr
    | Function ps v =>
      rw [evalNode_Function] at hr; cases hr
      exact ⟨keysWithin_refl env, fun e he => by cases he⟩
    | Call c args => rw [evalNode_Call] at hr; exact CallNode_Eval_regular ih _ _ _ _ _ hr
    | Other k =>
      rw [evalNode_Other] at hr
      split_ifs at hr <;> cases hr <;>
        exact ⟨keysWithin_refl env, fun e he => by cases he; exact fun x => x⟩

/-! ## C11: First and Second -/

/-- C11: when `a` and `b` evaluate to the values `va` and `vb`, `First` applied
to `Tuple(a, b)` evaluates to `va` and `Second` to `vb`; and `First` or `Second`
applied to a node that evaluates to a value that is no Tuple fails with the
error that only Tuples are accepted. -/
theorem projection_of_tuple (D : Decls) (fuel : Nat) (a b x : Node)
    (env env1 env2 env3 : Environment) (va vb v : Term)
    (ha : evalNode D fuel a env = some (.ok va, env1))
    (hb : evalNode D fuel b env1 = some (.ok vb, env2))
    (hx : evalNode D fuel x env = some (.ok v, env3))
    (hv : ∀ f s, v ≠ .TupleNode f s) :
    evalNode D (fuel + 2) (.First (.Tuple a b)) env = some (.ok va, env2)
      ∧ evalNode D (fuel + 2) (.Second (.Tuple a b)) env = some (.ok vb, env2)
      ∧ evalNode D (fuel + 1) (.First x) env = some (.err (.tupleOnly "First"), env3)
      ∧ evalNode D (fuel + 1) (.Second x) env = some (.err (.tupleOnly "Second"), env3) := by
  have ht : evalNode D (fuel + 1) (.Tuple a b) env = some (.ok (.TupleNode va vb), env2) := by
    rw [evalNode_Tuple, TupleNode.Eval, ha]
    simp only [hb]
  refine ⟨?_, ?_, ?_, ?_⟩
  · rw [evalNode_First, TupleFunction.Eval, ht]; rfl
  · rw [evalNode_Second, TupleFunction.Eval, ht]; rfl
  · rw [evalNode_First, TupleFunction.Eval, hx]
    cases v with
    | TupleNode f s => exact absurd rfl (hv f s)
    | _ => rfl
  · rw [evalNode_Second, TupleFunction.Eval, hx]
    cases v with
    | TupleNode f s => exact absurd rfl (hv f s)
    | _ => rfl

/-- C11, an instance: `First(Tuple(1, 2))` is `Int 1`, `Second(Tuple(1, 2))` is
`Int 2`, and `First(3)` fails. -/
theorem projection_of_tuple_witness :
    evalNode decls64 3 (.First (.Tuple (.Int 1) (.Int 2))) NewEnvironment
        = some (.ok (.IntNode 1), NewEnvironment)
      ∧ evalNode decls64 3 (.Second (.Tuple (.Int 1) (.Int 2))) NewEnvironment
        = some (.ok (.IntNode 2), NewEnvironment)
      ∧ evalNode decls64 2 (.First (.Int 3)) NewEnvironment
        = some (.err (.tupleOnly "First"), NewEnvironment)
      ∧ evalNode decls64 2 (.Second (.Int 3)) NewEnvironment
        = some (.err (.tupleOnly "Second"), NewEnvironment) :=
  projection_of_tuple decls64 1 (.Int 1) (.Int 2) (.Int 3) NewEnvironment NewEnvironment
    NewEnvironment NewEnvironment (.IntNode 1) (.IntNode 2) (.IntNode 3) rfl rfl rfl
    (fun f s h => by cases h)

/-! ## C12: argument count -/

/-- C12: when the callee of a Call evaluates to a Function whose number of
parameters differs from the number of arguments, the call fails with the arity
error that names both numbers; `setParameters` leaves the environment of the
function as it was, so no parameter is bound; and the body is not evaluated:
the result is the same whatever the body is, also for a body whose evaluation
would never return. -/
theorem call_with_wrong_argument_count (D : Decls) (fuel : Nat) (callee body body2 : Node)
    (arguments : List (Option Node)) (parameters : List (Option String))
    (env env1 fenv : Environment)
    (hc : evalNode D fuel callee env = some (.ok (.FunctionNode parameters body fenv), env1))
    (hne : parameters.length ≠ arguments.length) :
    evalNode D (fuel + 1) (.Call callee arguments) env
        = some (.err (.arity parameters.length arguments.length), env1)
      ∧ FunctionNode.setParameters parameters fenv arguments
        = (some (.arity parameters.length arguments.length), fenv)
      ∧ evalNode D (fuel + 2) (.Call (.Function parameters body2) arguments) env
        = some (.err (.arity parameters.length arguments.length), env) := by
  have hs : ∀ f, FunctionNode.setParameters parameters f arguments
      = (some (.arity parameters.length arguments.length), f) := by
    intro f
    unfold FunctionNode.setParameters
    rw [if_pos hne]
  refine ⟨?_, hs fenv, ?_⟩
  · rw [evalNode_Call, CallNode.Eval, hc]
    simp only [hs fenv]
  · rw [evalNode_Call, CallNode.Eval, evalNode_Function]
    simp only [hs NewEnvironment]

/-- C12, an instance: the factorial function, with one parameter, called on
two arguments, and a function whose body is a variable bound to itself called
on no argument. -/
theorem call_with_wrong_argument_count_witness :
    evalNode decls64 3 (.Call (.Var "fact") [some (.Int 1), some (.Int 2)]) factEnv0
        = some (.err (.arity 1 2), factEnv0)
      ∧ FunctionNode.setParameters [some "n"] NewEnvironment [some (.Int 1), some (.Int 2)]
        = (some (.arity 1 2), NewEnvironment)
      ∧ evalNode decls64 3 (.Call (.Function [some "n"] (.Var "x")) [some (.Int 1), some (.Int 2)])
          (NewEnvironment.Set "x" (.Var "x"))
        = some (.err (.arity 1 2), NewEnvironment.Set "x" (.Var "x")) :=
  ⟨(call_with_wrong_argument_count decls64 2 (.Var "fact") factBody (.Var "x")
      [some (.Int 1), some (.Int 2)] [some "n"] factEnv0 factEnv0 NewEnvironment rfl
      (by decide)).1,
    (call_with_wrong_argument_count decls64 2 (.Var "fact") factBody (.Var "x")
      [some (.Int 1), some (.Int 2)] [some "n"] factEnv0 factEnv0 NewEnvironment rfl
      (by decide)).2.1,
    (call_with_wrong_argument_count decls64 1 (.Function [some "n"] (.Var "x")) (.Var "x")
      (.Var "x") [some (.Int 1), some (.Int 2)] [some "n"] (NewEnvironment.Set "x" (.Var "x"))
      (NewEnvironment.Set "x" (.Var "x")) NewEnvironment rfl (by decide)).2.2⟩

/-! ## C13: Var -/

/-- C13, as stated, fails: with `x` bound to the node `Var y` and `y` not
bound, `x` is present in the environment and yet `Var x` fails with an
undeclared-variable error, the one for `y` that the bound node returns. -/
theorem var_fails_for_another_identifier :
    (NewEnvironment.Set "x" (.Var "y")).Get "x" = some (.Var "y")
      ∧ evalNode decls64 2 (.Var "x") (NewEnvironment.Set "x" (.Var "y"))
        = some (.err (.undeclaredVariable "y"), NewEnvironment.Set "x" (.Var "y"))
      ∧ ¬ ∀ (D : Decls) (identifier : String) (env : Environment),
          ((∃ k name env2, evalNode D k (.Var identifier) env
              = some (.err (.undeclaredVariable name), env2)) ↔ env.Get identifier = none) := by
  refine ⟨rfl, rfl, fun h => ?_⟩
  have h2 := (h decls64 "x" (NewEnvironment.Set "x" (.Var "y"))).1
    ⟨2, "y", NewEnvironment.Set "x" (.Var "y"), rfl⟩
  rw [Environment.Get_Set_same] at h2
  cases h2

/-- C13 (amended): evaluating `Var(id)` fails with the undeclared-variable
error that names `id` exactly when `id` is absent from the environment; when
`id` is bound to the node `n`, the result of `Var(id)` is exactly the result of
evaluating `n` in that same environment, at every access (with one unit of fuel
less), so an error of `n`, also an undeclared-variable error for another
identifier, is the result of `Var(id)`. -/
theorem var_evaluates_bound_node (D : Decls) (fuel : Nat) (identifier : String)
    (env : Environment) :
    (env.Get identifier = none →
        evalNode D (fuel + 1) (.Var identifier) env
          = some (.err (.undeclaredVariable identifier), env))
      ∧ (∀ n, env.Get identifier = some n →
        evalNode D (fuel + 1) (.Var identifier) env = evalNode D fuel n env)
      ∧ ((∃ k env2, evalNode D k (.Var identifier) env
          = some (.err (.undeclaredVariable identifier), env2)) ↔ env.Get identifier = none) := by
  have h1 : env.Get identifier = none → ∀ k, evalNode D (k + 1) (.Var identifier) env
      = some (.err (.undeclaredVariable identifier), env) := by
    intro h k
    rw [evalNode_Var, VarNode.Eval, h]
  refine ⟨fun h => h1 h fuel, fun n h => evalNode_Var_bound D fuel identifier env n h, ?_, ?_⟩
  · rintro ⟨k, env2, h⟩
    by_contra hne
    exact (evalNode_regular D k _ _ _ _ h).2 _ rfl hne
  · intro h
    exact ⟨1, env, h1 h 0⟩

/-- C13, an instance: `x` is bound to the node `Var y`; with `y` bound to
`Int 1` the access to `x` gives `Int 1`, after `y` is bound to `Int 2` the same
access gives `Int 2`, and an identifier that is not bound fails. -/
theorem var_evaluates_bound_node_witness :
    evalNode decls64 3 (.Var "x") ((NewEnvironment.Set "x" (.Var "y")).Set "y" (.Int 1))
        = some (.ok (.IntNode 1), (NewEnvironment.Set "x" (.Var "y")).Set "y" (.Int 1))
      ∧ evalNode decls64 3 (.Var "x") ((NewEnvironment.Set "x" (.Var "y")).Set "y" (.Int 2))
        = some (.ok (.IntNode 2), (NewEnvironment.Set "x" (.Var "y")).Set "y" (.Int 2))
      ∧ evalNode decls64 3 (.Var "z") (NewEnvironment.Set "x" (.Var "y"))
        = some (.err (.undeclaredVariable "z"), NewEnvironment.Set "x" (.Var "y")) :=
  ⟨((var_evaluates_bound_node decls64 2 "x"
      ((NewEnvironment.Set "x" (.Var "y")).Set "y" (.Int 1))).2.1 (.Var "y") rfl).trans rfl,
    ((var_evaluates_bound_node decls64 2 "x"
      ((NewEnvironment.Set "x" (.Var "y")).Set "y" (.Int 2))).2.1 (.Var "y") rfl).trans rfl,
    (var_evaluates_bound_node decls64 2 "z" (NewEnvironment.Set "x" (.Var "y"))).1 rfl⟩

/-! ## C14: copy-merge -/

/-- C14: after `dst.Copy(src)`, and likewise after `captureEnv(src)` on the
environment `dst` of a function, every key that `dst` had keeps its value,
every key of `src` that `dst` did not have maps to the value it has in `src`,
and a key that neither has is not bound.  The loop only reads `src`. -/
theorem copy_is_non_overwriting_union (dst src : Environment) (key : String) :
    ((∀ v, dst.Get key = some v → (dst.Copy src).Get key = some v)
        ∧ (dst.Get key = none → (dst.Copy src).Get key = src.Get key)
        ∧ (dst.Get key = none → src.Get key = none → (dst.Copy src).Get key = none))
      ∧ ((∀ v, dst.Get key = some v → (FunctionNode.captureEnv dst src).Get key = some v)
        ∧ (dst.Get key = none → (FunctionNode.captureEnv dst src).Get key = src.Get key)
        ∧ (dst.Get key = none → src.Get key = none →
          (FunctionNode.captureEnv dst src).Get key = none)) := by
  have h := foldl_copyEntry_get src.SymbolTable dst key
  exact ⟨⟨h.1, h.2, fun h1 h2 => (h.2 h1).trans h2⟩, ⟨h.1, h.2, fun h1 h2 => (h.2 h1).trans h2⟩⟩

/-- C14, an instance: `x` is bound in both environments and keeps the value of
the receiver, `y` is bound in the source only and is taken over, `z` is bound
in neither. -/
theorem copy_is_non_overwriting_union_witness :
    ((NewEnvironment.Set "x" (.Int 1)).Copy
          ((NewEnvironment.Set "x" (.Int 2)).Set "y" (.Int 3))).Get "x" = some (.Int 1)
      ∧ ((NewEnvironment.Set "x" (.Int 1)).Copy
          ((NewEnvironment.Set "x" (.Int 2)).Set "y" (.Int 3))).Get "y"
        = ((NewEnvironment.Set "x" (.Int 2)).Set "y" (.Int 3)).Get "y"
      ∧ ((NewEnvironment.Set "x" (.Int 1)).Copy
          ((NewEnvironment.Set "x" (.Int 2)).Set "y" (.Int 3))).Get "z" = none
      ∧ (FunctionNode.captureEnv (NewEnvironment.Set "x" (.Int 1))
          ((NewEnvironment.Set "x" (.Int 2)).Set "y" (.Int 3))).Get "x" = some (.Int 1) :=
  ⟨(copy_is_non_overwriting_union (NewEnvironment.Set "x" (.Int 1))
      ((NewEnvironment.Set "x" (.Int 2)).Set "y" (.Int 3)) "x").1.1 (.Int 1) rfl,
    (copy_is_non_overwriting_union (NewEnvironment.Set "x" (.Int 1))
      ((NewEnvironment.Set "x" (.Int 2)).Set "y" (.Int 3)) "y").1.2.1 rfl,
    (copy_is_non_overwriting_union (NewEnvironment.Set "x" (.Int 1))
      ((NewEnvironment.Set "x" (.Int 2)).Set "y" (.Int 3)) "z").1.2.2 rfl rfl,
    (copy_is_non_overwriting_union (NewEnvironment.Set "x" (.Int 1))
      ((NewEnvironment.Set "x" (.Int 2)).Set "y" (.Int 3)) "x").2.1 (.Int 1) rfl⟩

/-! ## C15: errors inside a Tuple -/

/-- C15: the code breaks the claim.  When a component of a Tuple fails, the
Tuple does not fail: `TupleNode.Eval` returns the empty `TupleNode{}` with a
nil error.  So `Tuple(Var "missing", Int 1)` and `Tuple(Int 1, Var "missing")`
evaluate in the empty environment to the Tuple of two nil fields, although
`Var "missing"` fails there, `EvalTree` reports success, and a first component
of unknown kind is answered in the same way in every environment. -/
theorem tuple_swallows_component_errors (D : Decls) (fuel : Nat) (env : Environment) :
    evalNode D (fuel + 1) (.Var "missing") NewEnvironment
        = some (.err (.undeclaredVariable "missing"), NewEnvironment)
      ∧ evalNode D (fuel + 2) (.Tuple (.Var "missing") (.Int 1)) NewEnvironment
        = some (.ok (.TupleNode .nil .nil), NewEnvironment)
      ∧ evalNode D (fuel + 2) (.Tuple (.Int 1) (.Var "missing")) NewEnvironment
        = some (.ok (.TupleNode .nil .nil), NewEnvironment)
      ∧ EvalTree D (fuel + 2) (.expression (.Tuple (.Var "missing") (.Int 1))) NewEnvironment
        = some (.ok (), NewEnvironment)
      ∧ evalNode D (fuel + 2) (.Tuple (.Other "Nonsense") (.Int 1)) env
        = some (.ok (.TupleNode .nil .nil), env) := by
  have hv : ∀ k, evalNode D (k + 1) (.Var "missing") NewEnvironment
      = some (.err (.undeclaredVariable "missing"), NewEnvironment) := fun _ => rfl
  have h1 : evalNode D (fuel + 2) (.Tuple (.Var "missing") (.Int 1)) NewEnvironment
      = some (.ok (.TupleNode .nil .nil), NewEnvironment) := by
    rw [evalNode_Tuple, TupleNode.Eval, hv fuel]
  refine ⟨hv fuel, h1, ?_, ?_, ?_⟩
  · rw [evalNode_Tuple, TupleNode.Eval, evalNode_Int]
    simp only [hv fuel]
  · simp only [EvalTree, h1]
  · have ho : evalNode D (fuel + 1) (.Other "Nonsense") env
        = some (.err (.unknownTerm "Nonsense"), env) := by
      rw [evalNode_Other, if_neg (by decide)]
    rw [evalNode_Tuple, TupleNode.Eval, ho]

/-! ## C17: EvalTree -/

/-- C17: `EvalTree` fails with the error for a tree without expressions exactly
when the field `expression` is missing, is not an object, or is an object
without entries.  Otherwise it evaluates the expression node, once: it returns
success exactly when that evaluation returns a value, an error of the
evaluation is returned unchanged, and the environment is left as that one
evaluation leaves it. -/
theorem evalTree_contract (D : Decls) (fuel : Nat) (tree : Tree) (env : Environment) :
    ((tree = .missing ∨ tree = .notObject ∨ tree = .empty) →
        EvalTree D fuel tree env = some (.err .emptyTree, env))
      ∧ ((∃ env2, EvalTree D fuel tree env = some (.err .emptyTree, env2))
        ↔ (tree = .missing ∨ tree = .notObject ∨ tree = .empty))
      ∧ (∀ node, tree = .expression node →
        ((∀ env1, EvalTree D fuel tree env = some (.ok (), env1)
            ↔ ∃ t, evalNode D fuel node env = some (.ok t, env1))
          ∧ (∀ e env1, EvalTree D fuel tree env = some (.err e, env1)
            ↔ evalNode D fuel node env = some (.err e, env1)))) := by
  have hempty : (tree = .missing ∨ tree = .notObject ∨ tree = .empty) →
      EvalTree D fuel tree env = some (.err .emptyTree, env) := by
    rintro (h | h | h) <;> rw [h] <;> rfl
  have hnode : ∀ node, tree = .expression node →
      ((∀ env1, EvalTree D fuel tree env = some (.ok (), env1)
          ↔ ∃ t, evalNode D fuel node env = some (.ok t, env1))
        ∧ (∀ e env1, EvalTree D fuel tree env = some (.err e, env1)
          ↔ evalNode D fuel node env = some (.err e, env1))) := by
    intro node h
    subst h
    unfold EvalTree
    cases hr : evalNode D fuel node env with
    | none => simp [hr]
    | some p =>
      obtain ⟨o, env2⟩ := p
      cases o <;> simp [hr]
  refine ⟨hempty, ⟨?_, fun h => ⟨env, hempty h⟩⟩, hnode⟩
  rintro ⟨env2, h⟩
  cases tree with
  | expression node =>
    have h2 := ((hnode node rfl).2 .emptyTree env2).1 h
    exact absurd trivial ((evalNode_regular D fuel _ _ _ _ h2).2 _ rfl)
  | missing => exact Or.inl rfl
  | notObject => exact Or.inr (Or.inl rfl)
  | empty => exact Or.inr (Or.inr rfl)

/-- C17, an instance: a missing expression fails, the expression `Int 1`
succeeds, and the error of an undeclared variable is returned as it is. -/
theorem evalTree_contract_witness :
    EvalTree decls64 1 .missing NewEnvironment = some (.err .emptyTree, NewEnvironment)
      ∧ (EvalTree decls64 1 (.expression (.Int 1)) NewEnvironment = some (.ok (), NewEnvironment)
        ↔ ∃ t, evalNode decls64 1 (.Int 1) NewEnvironment = some (.ok t, NewEnvironment))
      ∧ (EvalTree decls64 2 (.expression (.Var "x")) NewEnvironment
          = some (.err (.undeclaredVariable "x"), NewEnvironment)
        ↔ evalNode decls64 2 (.Var "x") NewEnvironment
          = some (.err (.undeclaredVariable "x"), NewEnvironment)) :=
  ⟨(evalTree_contract decls64 1 .missing NewEnvironment).1 (Or.inl rfl),
    ((evalTree_contract decls64 1 (.expression (.Int 1)) NewEnvironment).2.2 (.Int 1) rfl).1
      NewEnvironment,
    ((evalTree_contract decls64 2 (.expression (.Var "x")) NewEnvironment).2.2 (.Var "x") rfl).2
      (.undeclaredVariable "x") NewEnvironment⟩

/-! ## C19: unknown operators -/

theorem operate_unknown (D : Decls) (op : String) (l r : Term) (h : op ∉ knownOperators) :
    BinaryNode.operate D op l r = .err (.unknownOperator op) := by
  simp only [knownOperators, List.mem_cons, List.mem_singleton, not_or, List.mem_nil_iff,
    or_false] at h
  obtain ⟨h1, h2, h3, h4, h5, h6, h7, h8, h9, h10, h11, h12, h13⟩ := h
  simp [BinaryNode.operate, h1, h2, h3, h4, h5, h6, h7, h8, h9, h10, h11, h12, h13]

/-- C19: when both operands of a Binary node evaluate to values, an operator
tag that is none of the thirteen known tags makes the evaluation fail with the
unknown-operator error for that tag, and with a known tag the evaluation never
returns an unknown-operator error. -/
theorem unknown_operator_error (D : Decls) (fuel : Nat) (op : String) (lhs rhs : Node)
    (env env1 env2 : Environment) (l r : Term)
    (hl : evalNode D fuel lhs env = some (.ok l, env1))
    (hr : evalNode D fuel rhs env1 = some (.ok r, env2)) :
    (op ∉ knownOperators →
        evalNode D (fuel + 1) (.Binary op lhs rhs) env = some (.err (.unknownOperator op), env2))
      ∧ (op ∈ knownOperators → ∀ o env3,
        evalNode D (fuel + 1) (.Binary op lhs rhs) env
          ≠ some (.err (.unknownOperator o), env3)) := by
  have hb := evalNode_Binary_ok D fuel op lhs rhs env env1 env2 l r hl hr
  refine ⟨fun h => ?_, fun h o env3 hc => ?_⟩
  · rw [hb, operate_unknown D op l r h]
  · rw [hb] at hc
    have he : BinaryNode.operate D op l r = .err (.unknownOperator o) := by
      injection hc with hc
      exact (Prod.mk.inj hc).1
    rcases operate_err D op l r _ he with h2 | h2 | h2 | h2 | h2
    · cases h2.2
    · cases h2.2
    · cases h2.2
    · cases h2.2
    · exact h2.1 h

/-- C19, an instance: `Pow` is no known tag and fails, `Add` is known and
returns no unknown-operator error. -/
theorem unknown_operator_error_witness :
    evalNode decls64 2 (.Binary "Pow" (.Int 2) (.Int 3)) NewEnvironment
        = some (.err (.unknownOperator "Pow"), NewEnvironment)
      ∧ ∀ o env3, evalNode decls64 2 (.Binary "Add" (.Int 2) (.Int 3)) NewEnvironment
        ≠ some (.err (.unknownOperator o), env3) :=
  ⟨(unknown_operator_error decls64 1 "Pow" (.Int 2) (.Int 3) NewEnvironment NewEnvironment
      NewEnvironment (.IntNode 2) (.IntNode 3) rfl rfl).1 (by decide),
    (unknown_operator_error decls64 1 "Add" (.Int 2) (.Int 3) NewEnvironment NewEnvironment
      NewEnvironment (.IntNode 2) (.IntNode 3) rfl rfl).2 (by decide)⟩

/-! ## Binding parameters -/

theorem setParametersFrom_ok (parameters : List (Option String)) :
    ∀ (argIndex : Nat) (arguments : List (Option Node)) (fenv fenv1 : Environment),
      setParametersFrom argIndex parameters arguments fenv = (none, fenv1) →
      parameters.length = arguments.length →
        (∀ key v, fenv.Get key = some v → fenv1.Get key = some v)
          ∧ (∀ (j : Nat) name node, parameters[j]? = some (some name) →
              arguments[j]? = some (some node) → fenv1.Get name = some node)
          ∧ (∀ key, some key ∉ parameters → fenv1.Get key = fenv.Get key)
          ∧ (∀ name, some name ∈ parameters → fenv1.Get name ≠ none) := by
  induction parameters with
  | nil =>
    intro i args fenv fenv1 h hlen
    cases args with
    | nil =>
      simp only [setParametersFrom, Prod.mk.injEq, true_and] at h
      subst h
      exact ⟨fun _ _ h => h, fun j name node hj => by simp at hj, fun _ _ => rfl,
        fun name hn => by simp at hn⟩
    | cons a as => simp at hlen
  | cons p ps ih =>
    intro i args fenv fenv1 h hlen
    cases args with
    | nil => simp at hlen
    | cons a as =>
      cases p with
      | none => simp [setParametersFrom] at h
      | some name =>
        cases a with
        | none => simp [setParametersFrom] at h
        | some arg =>
          simp only [setParametersFrom] at h
          cases hg : fenv.Get name with
          | some _ => simp [hg] at h
          | none =>
            simp only [hg] at h
            have hlen2 : ps.length = as.length := by simpa using hlen
            obtain ⟨ha, hb, hc, hd⟩ := ih _ _ _ _ h hlen2
            have hname : fenv1.Get name = some arg :=
              ha name arg (Environment.Get_Set_same fenv name arg)
            refine ⟨?_, ?_, ?_, ?_⟩
            · intro key v hk
              have hne : key ≠ name := fun e => by rw [e, hg] at hk; cases hk
              exact ha key v ((Environment.Get_Set_other fenv name key arg hne).trans hk)
            · intro j nm node hj1 hj2
              cases j with
              | zero =>
                simp only [List.getElem?_cons_zero, Option.some.injEq] at hj1 hj2
                subst hj1; subst hj2
                exact hname
              | succ j =>
                simp only [List.getElem?_cons_succ] at hj1 hj2
                exact hb j nm node hj1 hj2
            · intro key hk
              simp only [List.mem_cons, not_or, Option.some.injEq] at hk
              rw [hc key hk.2]
              exact Environment.Get_Set_other fenv name key arg hk.1
            · intro nm hn
              simp only [List.mem_cons, Option.some.injEq] at hn
              rcases hn with hn | hn
              · rw [hn, hname]; simp
              · exact hd nm hn

theorem setParameters_ok (parameters : List (Option String)) (arguments : List (Option Node))
    (fenv fenv1 : Environment)
    (h : FunctionNode.setParameters parameters fenv arguments = (none, fenv1)) :
    parameters.length = arguments.length
      ∧ setParametersFrom 0 parameters arguments fenv = (none, fenv1) := by
  unfold FunctionNode.setParameters at h
  split_ifs at h with hne
  · simp at h
  · exact ⟨not_not.mp hne, h⟩

theorem setParametersFrom_append (parameters : List (Option String)) :
    ∀ (argIndex : Nat) (arguments : List (Option Node)) (fenv fenvm : Environment)
      (restP : List (Option String)) (restA : List (Option Node)),
      setParametersFrom argIndex parameters arguments fenv = (none, fenvm) →
      parameters.length = arguments.length →
        setParametersFrom argIndex (parameters ++ restP) (arguments ++ restA) fenv
          = setParametersFrom (argIndex + parameters.length) restP restA fenvm := by
  induction parameters with
  | nil =>
    intro i args fenv fenvm restP restA h hlen
    cases args with
    | nil =>
      simp only [setParametersFrom, Prod.mk.injEq, true_and] at h
      subst h
      simp
    | cons a as => simp at hlen
  | cons p ps ih =>
    intro i args fenv fenvm restP restA h hlen
    cases args with
    | nil => simp at hlen
    | cons a as =>
      cases p with
      | none => simp [setParametersFrom] at h
      | some name =>
        cases a with
        | none => simp [setParametersFrom] at h
        | some arg =>
          simp only [setParametersFrom] at h
          cases hg : fenv.Get name with
          | some _ => simp [hg] at h
          | none =>
            simp only [hg] at h
            have hlen2 : ps.length = as.length := by simpa using hlen
            have := ih (i + 1) as (fenv.Set name arg) fenvm restP restA h hlen2
            simp only [List.cons_append, setParametersFrom, hg, List.length_cons]
            have e : i + 1 + ps.length = i + (ps.length + 1) := by omega
            rw [← e]
            exact this

theorem setParametersFrom_names (names : List String) :
    ∀ (argIndex : Nat) (nodes : List Node) (fenv : Environment),
      names.length = nodes.length → names.Nodup → (∀ n ∈ names, fenv.Get n = none) →
        setParametersFrom argIndex (names.map some) (nodes.map some) fenv
          = (none, bindParameters fenv names nodes) := by
  induction names with
  | nil =>
    intro i nodes fenv hlen _ _
    cases nodes with
    | nil => rfl
    | cons a as => simp at hlen
  | cons n ns ih =>
    intro i nodes fenv hlen hnd habs
    cases nodes with
    | nil => simp at hlen
    | cons a as =>
      have hg : fenv.Get n = none := habs n (List.mem_cons_self n ns)
      have hnd2 := List.nodup_cons.mp hnd
      simp only [List.map_cons, setParametersFrom, hg, bindParameters]
      refine ih (i + 1) as (fenv.Set n a) (by simpa using hlen) hnd2.2 ?_
      intro m hm
      have hne : m ≠ n := fun e => hnd2.1 (e ▸ hm)
      rw [Environment.Get_Set_other fenv n m a hne]
      exact habs m (List.mem_cons_of_mem n hm)

/-! ## C16: duplicate parameters -/

/-- C16: in a Call with matching argument count, let the parameters before `x`
be bound without error, leaving the environment `fenvm` of the function.  If
`x` is present in `fenvm`, the call fails with the mixed-parameter error for
`x`, whatever the body is.  `x` is present there when it was in the captured
environment from the start and when it is a name that occurs earlier in the
same parameter list.  And when the names are pairwise different and none of
them is in the captured environment, binding succeeds and binds them all. -/
theorem duplicate_parameter_error (D : Decls) (fuel : Nat) (callee body : Node)
    (env env1 fenv fenvm : Environment) (before restP : List (Option String))
    (argsBefore restA : List (Option Node)) (x : String) (arg : Node)
    (names : List String) (nodes : List Node)
    (hc : evalNode D fuel callee env
      = some (.ok (.FunctionNode (before ++ some x :: restP) body fenv), env1))
    (hrest : restP.length = restA.length)
    (hprev : FunctionNode.setParameters before fenv argsBefore = (none, fenvm)) :
    (fenvm.Get x ≠ none →
        evalNode D (fuel + 1) (.Call callee (argsBefore ++ some arg :: restA)) env
          = some (.err (.mixedParameter x), env1))
      ∧ (fenv.Get x ≠ none → fenvm.Get x ≠ none)
      ∧ (some x ∈ before → fenvm.Get x ≠ none)
      ∧ (names.length = nodes.length → names.Nodup → (∀ n ∈ names, fenv.Get n = none) →
        FunctionNode.setParameters (names.map some) fenv (nodes.map some)
          = (none, bindParameters fenv names nodes)) := by
  obtain ⟨hlen, hfrom⟩ := setParameters_ok before argsBefore fenv fenvm hprev
  obtain ⟨ha, _, _, hd⟩ := setParametersFrom_ok before 0 argsBefore fenv fenvm hfrom hlen
  refine ⟨fun hx => ?_, fun hx => ?_, fun hx => hd x hx, fun h1 h2 h3 => ?_⟩
  · have hs : FunctionNode.setParameters (before ++ some x :: restP) fenv
        (argsBefore ++ some arg :: restA) = (some (.mixedParameter x), fenvm) := by
      unfold FunctionNode.setParameters
      rw [if_neg (by simp [hlen, hrest]),
        setParametersFrom_append before 0 argsBefore fenv fenvm _ _ hfrom hlen]
      cases hg : fenvm.Get x with
      | none => exact absurd hg hx
      | some v => simp [setParametersFrom, hg]
    rw [evalNode_Call, CallNode.Eval, hc]
    simp only [hs]
  · cases hg : fenv.Get x with
    | none => exact absurd hg hx
    | some v => rw [ha x v hg]; simp
  · unfold FunctionNode.setParameters
    rw [if_neg (by simp [h1])]
    exact setParametersFrom_names names 0 nodes fenv h1 h2 h3

/-- C16, an instance: a function with the parameter list `n, n` called on two
arguments fails with the mixed-parameter error for `n`, although its body is a
variable bound to itself; the list `a, b` is bound without error. -/
theorem duplicate_parameter_error_witness :
    evalNode decls64 2 (.Call (.Function [some "n", some "n"] (.Var "x"))
          [some (.Int 1), some (.Int 2)]) (NewEnvironment.Set "x" (.Var "x"))
        = some (.err (.mixedParameter "n"), NewEnvironment.Set "x" (.Var "x"))
      ∧ FunctionNode.setParameters [some "a", some "b"] NewEnvironment
          [some (.Int 1), some (.Int 2)]
        = (none, bindParameters NewEnvironment ["a", "b"] [.Int 1, .Int 2]) :=
  ⟨(duplicate_parameter_error decls64 1 (.Function [some "n", some "n"] (.Var "x")) (.Var "x")
      (NewEnvironment.Set "x" (.Var "x")) (NewEnvironment.Set "x" (.Var "x")) NewEnvironment
      (NewEnvironment.Set "n" (.Int 1)) [some "n"] [] [some (.Int 1)] [] "n" (.Int 2)
      ["a", "b"] [.Int 1, .Int 2] rfl rfl rfl).1
      (by rw [Environment.Get_Set_same]; simp),
    (duplicate_parameter_error decls64 1 (.Function [some "n", some "n"] (.Var "x")) (.Var "x")
      (NewEnvironment.Set "x" (.Var "x")) (NewEnvironment.Set "x" (.Var "x")) NewEnvironment
      (NewEnvironment.Set "n" (.Int 1)) [some "n"] [] [some (.Int 1)] [] "n" (.Int 2)
      ["a", "b"] [.Int 1, .Int 2] rfl rfl rfl).2.2.2 rfl (by decide) (fun _ _ => rfl)⟩

/-! ## C20: the environment of the body -/

/-- C20: when the parameters of a Call are bound without error, the body is
evaluated in the environment of the function, in which each parameter name
maps to the raw argument node at the same position, every binding that the
function has keeps its value (so a parameter wins over a binding of the same
name in the caller), and every other key maps to what the caller binds it to.
The outcome of the Call is exactly the outcome of the body in that
environment; the caller keeps its own environment. -/
theorem call_evaluates_body_in_merged_env (D : Decls) (fuel : Nat) (callee body : Node)
    (arguments : List (Option Node)) (parameters : List (Option String))
    (env env1 fenv fenv1 : Environment)
    (hc : evalNode D fuel callee env = some (.ok (.FunctionNode parameters body fenv), env1))
    (hp : FunctionNode.setParameters parameters fenv arguments = (none, fenv1)) :
    evalNode D (fuel + 1) (.Call callee arguments) env
        = (match evalNode D fuel body (FunctionNode.captureEnv fenv1 env1) with
          | none => none
          | some (r, _) => some (r, env1))
      ∧ (∀ (j : Nat) name node, parameters[j]? = some (some name) →
          arguments[j]? = some (some node) →
          (FunctionNode.captureEnv fenv1 env1).Get name = some node)
      ∧ (∀ key v, fenv1.Get key = some v →
          (FunctionNode.captureEnv fenv1 env1).Get key = some v)
      ∧ (∀ key, fenv1.Get key = none →
          (FunctionNode.captureEnv fenv1 env1).Get key = env1.Get key)
      ∧ (∀ key, some key ∉ parameters → fenv1.Get key = fenv.Get key) := by
  obtain ⟨hlen, hfrom⟩ := setParameters_ok parameters arguments fenv fenv1 hp
  obtain ⟨_, hb, hcc, _⟩ := setParametersFrom_ok parameters 0 arguments fenv fenv1 hfrom hlen
  refine ⟨evalNode_Call_bound D fuel callee arguments env env1 fenv fenv1 parameters body hc hp,
    fun j name node h1 h2 => captureEnv_get_bound fenv1 env1 name node (hb j name node h1 h2),
    fun key v h => captureEnv_get_bound fenv1 env1 key v h,
    fun key h => captureEnv_get_free fenv1 env1 key h, hcc⟩

/-- C20, an instance: the caller binds `n` to `Int 9` and `m` to `Int 7`; in
the call `f(1)` of a function with the parameter `n` the body `n` evaluates to
`Int 1`, and the body sees `m` as the caller binds it. -/
theorem call_evaluates_body_in_merged_env_witness :
    evalNode decls64 4 (.Call (.Function [some "n"] (.Var "n")) [some (.Int 1)])
        ((NewEnvironment.Set "n" (.Int 9)).Set "m" (.Int 7))
        = some (.ok (.IntNode 1), (NewEnvironment.Set "n" (.Int 9)).Set "m" (.Int 7))
      ∧ (FunctionNode.captureEnv (NewEnvironment.Set "n" (.Int 1))
          ((NewEnvironment.Set "n" (.Int 9)).Set "m" (.Int 7))).Get "n" = some (.Int 1)
      ∧ (FunctionNode.captureEnv (NewEnvironment.Set "n" (.Int 1))
          ((NewEnvironment.Set "n" (.Int 9)).Set "m" (.Int 7))).Get "m"
        = ((NewEnvironment.Set "n" (.Int 9)).Set "m" (.Int 7)).Get "m" :=
  ⟨(call_evaluates_body_in_merged_env decls64 3 (.Function [some "n"] (.Var "n")) (.Var "n")
      [some (.Int 1)] [some "n"] ((NewEnvironment.Set "n" (.Int 9)).Set "m" (.Int 7))
      ((NewEnvironment.Set "n" (.Int 9)).Set "m" (.Int 7)) NewEnvironment
      (NewEnvironment.Set "n" (.Int 1)) rfl rfl).1.trans rfl,
    (call_evaluates_body_in_merged_env decls64 3 (.Function [some "n"] (.Var "n")) (.Var "n")
      [some (.Int 1)] [some "n"] ((NewEnvironment.Set "n" (.Int 9)).Set "m" (.Int 7))
      ((NewEnvironment.Set "n" (.Int 9)).Set "m" (.Int 7)) NewEnvironment
      (NewEnvironment.Set "n" (.Int 1)) rfl rfl).2.1 0 "n" (.Int 1) rfl rfl,
    (call_evaluates_body_in_merged_env decls64 3 (.Function [some "n"] (.Var "n")) (.Var "n")
      [some (.Int 1)] [some "n"] ((NewEnvironment.Set "n" (.Int 9)).Set "m" (.Int 7))
      ((NewEnvironment.Set "n" (.Int 9)).Set "m" (.Int 7)) NewEnvironment
      (NewEnvironment.Set "n" (.Int 1)) rfl rfl).2.2.2.1 "m" rfl⟩

/-! ## C18: Div and Rem -/

theorem tmod_follows_dividend (a b : Int) (hb : b ≠ 0) :
    |a.tmod b| < |b| ∧ (0 ≤ a → 0 ≤ a.tmod b) ∧ (a ≤ 0 → a.tmod b ≤ 0) := by
  have pos : ∀ x y : Int, 0 ≤ x → y ≠ 0 → 0 ≤ x.tmod y ∧ x.tmod y < |y| := by
    intro x y hx hy
    refine ⟨Int.tmod_nonneg y hx, ?_⟩
    rcases lt_or_gt_of_ne hy with h | h
    · have h2 := Int.tmod_lt_of_pos x (show 0 < -y by omega)
      rw [Int.tmod_neg] at h2
      rw [abs_of_neg h]; exact h2
    · rw [abs_of_pos h]; exact Int.tmod_lt_of_pos x h
  have neg : ∀ x y : Int, (-x).tmod y = -(x.tmod y) := by
    intro x y
    rw [Int.tmod_def, Int.tmod_def, Int.neg_tdiv]; ring
  rcases le_total 0 a with ha | ha
  · obtain ⟨h1, h2⟩ := pos a b ha hb
    refine ⟨by rw [abs_of_nonneg h1]; exact h2, fun _ => h1, fun h => ?_⟩
    have h0 : a = 0 := le_antisymm h ha
    subst h0; simp
  · obtain ⟨h1, h2⟩ := pos (-a) b (by omega) hb
    rw [neg] at h1 h2
    refine ⟨abs_lt.mpr ⟨by linarith, by linarith [abs_nonneg b]⟩, fun h => ?_, fun _ => by omega⟩
    have h0 : a = 0 := le_antisymm ha h
    subst h0; simp

theorem tdiv_inRange (bits : Nat) (a b : Int) (ha : inRange bits a) (hb : b ≠ 0)
    (hne : a ≠ -(2 ^ (bits - 1)) ∨ b ≠ -1) : inRange bits (a.tdiv b) := by
  unfold inRange at ha ⊢
  have hM : (0 : Int) < 2 ^ (bits - 1) := by positivity
  generalize (2 : Int) ^ (bits - 1) = M at ha hne hM ⊢
  have hq : (a.tdiv b).natAbs = a.natAbs / b.natAbs := Int.natAbs_tdiv a b
  have hle : a.natAbs / b.natAbs ≤ a.natAbs := Nat.div_le_self _ _
  by_cases hmin : a = -M
  · have hb1 : b ≠ -1 := by
      rcases hne with h | h
      · exact absurd hmin h
      · exact h
    rcases lt_or_gt_of_ne hb with hneg | hpos
    · have hlt : a.natAbs / b.natAbs < a.natAbs :=
        Nat.div_lt_self (by omega) (by omega)
      omega
    · have hsign : a.tdiv b ≤ 0 := by
        have h1 : a.tdiv b = -((-a).tdiv b) := by rw [Int.neg_tdiv]; ring
        have h2 : 0 ≤ (-a).tdiv b := Int.tdiv_nonneg (by omega) (by omega)
        omega
      omega
  · omega

theorem operate_Div (D : Decls) (a b : Int) (hb : b ≠ 0) :
    BinaryNode.operate D "Div" (.IntNode a) (.IntNode b)
      = .ok (.IntNode (wrapInt D.intBits (a.tdiv b))) := by
  simp [BinaryNode.operate, Term.asInt, hb]

theorem operate_Rem (D : Decls) (a b : Int) (hb : b ≠ 0) :
    BinaryNode.operate D "Rem" (.IntNode a) (.IntNode b) = .ok (.IntNode (a.tmod b)) := by
  simp [BinaryNode.operate, Term.asInt, hb]

/-- C18, as stated, fails for the least value of the Integer type divided by
`-1`: the quotient truncated toward zero is not representable, the code yields
the least value itself, and `a = (a Div b) * b + (a Rem b)` does not hold for
these results. -/
theorem div_of_least_value_wraps :
    evalNode decls64 2 (.Binary "Div" (.Int (-9223372036854775808)) (.Int (-1))) NewEnvironment
        = some (.ok (.IntNode (-9223372036854775808)), NewEnvironment)
      ∧ evalNode decls64 2 (.Binary "Rem" (.Int (-9223372036854775808)) (.Int (-1)))
          NewEnvironment
        = some (.ok (.IntNode 0), NewEnvironment)
      ∧ Int.tdiv (-9223372036854775808) (-1) = 9223372036854775808
      ∧ (-9223372036854775808 : Int) ≠ (-9223372036854775808) * (-1) + 0
      ∧ evalNode decls32 2 (.Binary "Div" (.Int (-2147483648)) (.Int (-1))) NewEnvironment
        = some (.ok (.IntNode (-2147483648)), NewEnvironment) := by
  refine ⟨rfl, rfl, by decide, by decide, rfl⟩

/-- C18 (amended): for all integers `a` and `b` with `b` non-zero,
`Binary(Rem, Int a, Int b)` yields the remainder `r` of the division truncated
toward zero, and `Binary(Div, Int a, Int b)` yields its quotient `q` reduced to
the range of the Integer type by wrap-around, where `a = q * b + r`,
`|r| < |b|` and the sign of `r` follows `a`.  For `a` in the range of the type
the quotient is `q` itself, except when `a` is the least value of the type and
`b` is `-1`: then the result of `Div` is that least value. -/
theorem div_rem_truncate_toward_zero (D : Decls) (fuel : Nat) (a b : Int) (env : Environment)
    (hb : b ≠ 0) :
    evalNode D (fuel + 2) (.Binary "Div" (.Int a) (.Int b)) env
        = some (.ok (.IntNode (wrapInt D.intBits (a.tdiv b))), env)
      ∧ evalNode D (fuel + 2) (.Binary "Rem" (.Int a) (.Int b)) env
        = some (.ok (.IntNode (a.tmod b)), env)
      ∧ a = a.tdiv b * b + a.tmod b
      ∧ |a.tmod b| < |b|
      ∧ (0 ≤ a → 0 ≤ a.tmod b)
      ∧ (a ≤ 0 → a.tmod b ≤ 0)
      ∧ (0 < D.intBits → inRange D.intBits a → (a ≠ -(2 ^ (D.intBits - 1)) ∨ b ≠ -1) →
        evalNode D (fuel + 2) (.Binary "Div" (.Int a) (.Int b)) env
          = some (.ok (.IntNode (a.tdiv b)), env))
      ∧ (0 < D.intBits →
        evalNode D (fuel + 2) (.Binary "Div" (.Int (-(2 ^ (D.intBits - 1)))) (.Int (-1))) env
          = some (.ok (.IntNode (-(2 ^ (D.intBits - 1)))), env)) := by
  have hdiv : ∀ x y : Int, y ≠ 0 → evalNode D (fuel + 2) (.Binary "Div" (.Int x) (.Int y)) env
      = some (.ok (.IntNode (wrapInt D.intBits (x.tdiv y))), env) := by
    intro x y hy
    rw [evalNode_Binary_literals D fuel "Div" (.Int x) (.Int y) (.IntNode x) (.IntNode y) env
      (fun _ _ => rfl) (fun _ _ => rfl), operate_Div D x y hy]
  have hrem : evalNode D (fuel + 2) (.Binary "Rem" (.Int a) (.Int b)) env
      = some (.ok (.IntNode (a.tmod b)), env) := by
    rw [evalNode_Binary_literals D fuel "Rem" (.Int a) (.Int b) (.IntNode a) (.IntNode b) env
      (fun _ _ => rfl) (fun _ _ => rfl), operate_Rem D a b hb]
  obtain ⟨h1, h2, h3⟩ := tmod_follows_dividend a b hb
  refine ⟨hdiv a b hb, hrem, (Int.tdiv_add_tmod' a b).symm, h1, h2, h3, ?_, ?_⟩
  · intro hbits hr hne
    rw [hdiv a b hb, wrapInt_of_inRange _ _ hbits (tdiv_inRange _ a b hr hb hne)]
  · intro hbits
    rw [hdiv _ _ (by decide)]
    have hq : (-(2 : Int) ^ (D.intBits - 1)).tdiv (-1) = 2 ^ (D.intBits - 1) := by
      rw [Int.neg_tdiv_neg, Int.tdiv_one]
    have hp : (2 : Int) ^ D.intBits = 2 * 2 ^ (D.intBits - 1) := by
      obtain ⟨m, hm⟩ : ∃ m, D.intBits = m + 1 := ⟨D.intBits - 1, by omega⟩
      rw [hm]
      simp [pow_succ, mul_comm]
    have hw : wrapInt D.intBits (2 ^ (D.intBits - 1)) = -(2 ^ (D.intBits - 1)) := by
      unfold wrapInt
      rw [hp]
      have : ((2 : Int) ^ (D.intBits - 1) + 2 ^ (D.intBits - 1)) % (2 * 2 ^ (D.intBits - 1)) = 0 := by
        rw [← two_mul]; exact Int.emod_self
      rw [this]; ring
    rw [hq, hw]

/-- C18, an instance: `-7 / 2` is `-3` and `-7 % 2` is `-1` at 64 bits. -/
theorem div_rem_truncate_toward_zero_witness :
    (2 : Int) ≠ 0
      ∧ evalNode decls64 2 (.Binary "Rem" (.Int (-7)) (.Int 2)) NewEnvironment
        = some (.ok (.IntNode (Int.tmod (-7) 2)), NewEnvironment)
      ∧ evalNode decls64 2 (.Binary "Div" (.Int (-7)) (.Int 2)) NewEnvironment
        = some (.ok (.IntNode (Int.tdiv (-7) 2)), NewEnvironment)
      ∧ Int.tdiv (-7) 2 = -3 ∧ Int.tmod (-7) 2 = -1 :=
  ⟨by decide,
    (div_rem_truncate_toward_zero decls64 0 (-7) 2 NewEnvironment (by decide)).2.1,
    (div_rem_truncate_toward_zero decls64 0 (-7) 2 NewEnvironment (by decide)).2.2.2.2.2.2.1
      (by decide) (by unfold inRange; decide) (Or.inr (by decide)),
    by decide, by decide⟩

end Hina
